import Mathlib

/-!
# Verification of the rescue-mission agent engine (`main.py`)

A shallow embedding of the navigation and behavior engine of the rescue
simulation: the occupancy grid, the BFS pathfinder (`Game.bfs_pathfinding`),
the force-based steering controller (`Entity.seek`, `Entity.apply_force`,
`Entity.update_position`, `normalize`), the nearest-entity target selection
(`Game.get_nearest_victim`, `Game.get_nearest_hospital`), the victim registry,
and the per-tick NPC mission pipeline (`Game.update_npc`) and player move
(`Game.move_player`).

Python floats are modelled as real numbers; Python ints as `Int`/`Nat`;
the mutable `visited` dict of the BFS as an association list with unique keys
(append on insert, first-match lookup); the mutable 2D grid list as a function
`Int → Int → EntityType` updated pointwise.  Rendering-only data (colors,
screen) is omitted.
-/

namespace Rescue

/-! ## Constants and entity kinds (`main.py` lines 4-34) -/

def GRID_SIZE : Int := 40

inductive EntityType where
  | EMPTY
  | BUILDING
  | VICTIM
  | HOSPITAL
  | PLAYER
  | NPC
  deriving DecidableEq

inductive EntityState where
  | IDLE
  | GOING_TO_VICTIM
  | CARRYING_VICTIM
  | GOING_TO_HOSPITAL
  deriving DecidableEq

abbrev Cell := Int × Int

/-! ## 2D vectors over ℝ (pygame `Vector2`) -/

@[ext]
structure Vec2 where
  x : ℝ
  y : ℝ

instance : Add Vec2 := ⟨fun a b => ⟨a.x + b.x, a.y + b.y⟩⟩

instance : Sub Vec2 := ⟨fun a b => ⟨a.x - b.x, a.y - b.y⟩⟩

/-- `v * s`: pygame vector-times-scalar. -/
instance : HMul Vec2 ℝ Vec2 := ⟨fun v s => ⟨v.x * s, v.y * s⟩⟩

theorem Vec2.add_def (a b : Vec2) : a + b = ⟨a.x + b.x, a.y + b.y⟩ := rfl

theorem Vec2.sub_def (a b : Vec2) : a - b = ⟨a.x - b.x, a.y - b.y⟩ := rfl

theorem Vec2.hmul_def (v : Vec2) (s : ℝ) : v * s = ⟨v.x * s, v.y * s⟩ := rfl

/-- pygame `Vector2.length()`. -/
noncomputable def Vec2.length (v : Vec2) : ℝ := Real.sqrt (v.x ^ 2 + v.y ^ 2)

/-- `normalize(vector)` from `main.py` lines 16-20: guard against zero-length
vectors, else delegate to pygame `Vector2.normalize()` (divide by the length). -/
noncomputable def normalize (v : Vec2) : Vec2 :=
  if v.length > 0 then ⟨v.x / v.length, v.y / v.length⟩ else v

/-- Pixel center of a grid cell: `(c * GRID_SIZE + GRID_SIZE // 2)` per axis,
as computed both in `Entity.__init__` and in `Entity.seek`. -/
noncomputable def cellCenter (c : Cell) : Vec2 :=
  ⟨((c.1 * GRID_SIZE + GRID_SIZE / 2 : Int) : ℝ), ((c.2 * GRID_SIZE + GRID_SIZE / 2 : Int) : ℝ)⟩

/-! ## Entities (`main.py` lines 36-102; `draw` omitted, color omitted) -/

structure Entity where
  x : Int
  y : Int
  etype : EntityType
  carrying_victim : Bool
  state : EntityState
  path : List Cell
  target : Option Cell
  position : Vec2
  velocity : Vec2
  max_speed : ℝ
  max_force : ℝ

/-- `Entity.__init__` (lines 37-49). -/
noncomputable def Entity.make (x y : Int) (t : EntityType) : Entity :=
  { x := x, y := y, etype := t, carrying_victim := false, state := EntityState.IDLE,
    path := [], target := none, position := cellCenter (x, y),
    velocity := ⟨0, 0⟩, max_speed := 5, max_force := 0.5 }

/-- `Entity.apply_force` (lines 72-76): add the force to the velocity, then
clamp the velocity magnitude to `max_speed`. -/
noncomputable def Entity.apply_force (e : Entity) (force : Vec2) : Entity :=
  let v := e.velocity + force
  if v.length > e.max_speed then { e with velocity := normalize v * e.max_speed }
  else { e with velocity := v }

/-- The steering force computed inside `Entity.seek` (lines 51-68): desired
velocity toward the cell center (with linear arrival damping inside one grid
cell), minus current velocity, clamped to `max_force`. -/
noncomputable def seekSteering (e : Entity) (target : Cell) : Vec2 :=
  let target_position := cellCenter target
  let desired := target_position - e.position
  let distance := desired.length
  let desired :=
    if distance < (GRID_SIZE : ℝ) then
      (normalize desired * e.max_speed) * (distance / (GRID_SIZE : ℝ))
    else
      normalize desired * e.max_speed
  let steering := desired - e.velocity
  normalize steering * min e.max_force steering.length

/-- `Entity.seek` (lines 51-70). -/
noncomputable def Entity.seek (e : Entity) (target : Cell) : Entity :=
  e.apply_force (seekSteering e target)

/-- `Entity.update_position` (lines 78-89): advance the pixel position by the
velocity, recompute the grid cell by floor division, and report the new grid
cell when it changed (Python returns `None` otherwise). -/
noncomputable def Entity.update_position (e : Entity) : Entity × Option Cell :=
  let pos := e.position + e.velocity
  let new_grid_x : Int := ⌊pos.x / (GRID_SIZE : ℝ)⌋
  let new_grid_y : Int := ⌊pos.y / (GRID_SIZE : ℝ)⌋
  if new_grid_x ≠ e.x ∨ new_grid_y ≠ e.y then
    ({ e with position := pos }, some (new_grid_x, new_grid_y))
  else
    ({ e with position := pos }, none)

/-! ## BFS pathfinding (`Game.bfs_pathfinding`, lines 220-265)

The Python `visited` dict (cell ↦ parent, `None` for the start) is an
association list with append-on-insert and first-match lookup; keys are
inserted at most once, so this is exactly the dict.  The `while queue`
loop is fuelled: each iteration pops one cell and only enqueues cells that
are simultaneously added to `visited`, so `grid_width * grid_height + 1`
iterations always suffice (proved below). -/

/-- Movement directions in fixed order: up, right, down, left (line 231). -/
def directions : List (Int × Int) := [(0, -1), (1, 0), (0, 1), (-1, 0)]

def nbr (c : Cell) (d : Int × Int) : Cell := (c.1 + d.1, c.2 + d.2)

/-- First-match lookup in the visited association list (the dict lookup). -/
def lookupV : List (Cell × Option Cell) → Cell → Option (Option Cell)
  | [], _ => none
  | (k, p) :: rest, c => if c = k then some p else lookupV rest c

def keysOf (v : List (Cell × Option Cell)) : List Cell := v.map Prod.fst

/-- In-bounds test `0 <= x < grid_width and 0 <= y < grid_height`. -/
def inBounds (W H : Nat) (c : Cell) : Prop :=
  0 ≤ c.1 ∧ c.1 < (W : Int) ∧ 0 ≤ c.2 ∧ c.2 < (H : Int)

instance (W H : Nat) (c : Cell) : Decidable (inBounds W H c) := by
  unfold inBounds; infer_instance

/-- The BFS passability test (lines 255-257): in bounds and not a Building.
Cells holding victims, hospitals, the player or the NPC pass. -/
def passable (W H : Nat) (gr : Int → Int → EntityType) (c : Cell) : Prop :=
  inBounds W H c ∧ gr c.1 c.2 ≠ EntityType.BUILDING

instance (W H : Nat) (gr : Int → Int → EntityType) (c : Cell) :
    Decidable (passable W H gr c) := by
  unfold passable; infer_instance

/-- One neighbor test of the BFS inner loop (lines 251-262): if the next cell
is valid and unvisited, append it to the queue and record its parent. -/
def bfsVisit (W H : Nat) (gr : Int → Int → EntityType) (cur : Cell)
    (acc : List Cell × List (Cell × Option Cell)) (d : Int × Int) :
    List Cell × List (Cell × Option Cell) :=
  let next := nbr cur d
  if passable W H gr next ∧ lookupV acc.2 next = none then
    (acc.1 ++ [next], acc.2 ++ [(next, some cur)])
  else
    acc

/-- Parent-pointer walk of the path reconstruction (lines 238-244), producing
the goal-to-start order that Python builds with `path.append`; fuelled by the
size of `visited`, which always suffices. -/
def backChain (visited : List (Cell × Option Cell)) (start : Cell) :
    Cell → Nat → List Cell
  | _, 0 => []
  | cur, fuel + 1 =>
    if cur = start then []
    else
      match lookupV visited cur with
      | some (some p) => cur :: backChain visited start p fuel
      | _ => []

/-- The `while queue` loop of `bfs_pathfinding` (lines 233-263). -/
def bfsLoop (W H : Nat) (gr : Int → Int → EntityType) (start target : Cell) :
    Nat → List Cell → List (Cell × Option Cell) → List Cell
  | 0, _, _ => []
  | _ + 1, [], _ => []
  | fuel + 1, c :: rest, visited =>
    if c = target then
      (backChain visited start c visited.length).reverse
    else
      let acc := directions.foldl (bfsVisit W H gr c) (rest, visited)
      bfsLoop W H gr start target fuel acc.1 acc.2

/-- `Game.bfs_pathfinding` (lines 220-265): BFS shortest path over 4-connected
neighbors in the fixed order up, right, down, left; returns the cells from the
start (exclusive) to the target (inclusive), or `[]` when unreachable. -/
def bfs_pathfinding (W H : Nat) (gr : Int → Int → EntityType)
    (start_x start_y target_x target_y : Int) : List Cell :=
  bfsLoop W H gr (start_x, start_y) (target_x, target_y)
    (W * H + 1) [(start_x, start_y)] [((start_x, start_y), none)]

/-! ## Nearest-entity selection (lines 192-217) -/

/-- The scan loop shared by `get_nearest_victim` and `get_nearest_hospital`:
track the least Manhattan distance seen so far, strictly-less comparison, so
the first entity attaining the minimum wins. -/
def nearestScan (ex ey : Int) : List Entity → Option (Entity × Nat) → Option Entity
  | [], acc => acc.map Prod.fst
  | v :: rest, acc =>
    let d := (ex - v.x).natAbs + (ey - v.y).natAbs
    match acc with
    | none => nearestScan ex ey rest (some (v, d))
    | some (bv, bd) =>
      if d < bd then nearestScan ex ey rest (some (v, d))
      else nearestScan ex ey rest (some (bv, bd))

/-- `Game.get_nearest_victim` (lines 192-205). -/
def get_nearest_victim (victims : List Entity) (e : Entity) : Option Entity :=
  if victims.isEmpty then none else nearestScan e.x e.y victims none

/-- `Game.get_nearest_hospital` (lines 207-217). -/
def get_nearest_hospital (hospitals : List Entity) (e : Entity) : Option Entity :=
  nearestScan e.x e.y hospitals none

/-! ## The game state and per-tick updates -/

/-- Pointwise update of the mutable 2D grid. -/
def setCell (grid : Int → Int → EntityType) (x y : Int) (t : EntityType) :
    Int → Int → EntityType :=
  fun a b => if a = x ∧ b = y then t else grid a b

structure Game where
  grid_width : Nat
  grid_height : Nat
  grid : Int → Int → EntityType
  victims : List Entity
  hospitals : List Entity
  player : Entity
  npc : Entity
  rescued_count : Nat
  total_victims : Nat

/-- The victim pickup scan (lines 377-383 and 422-426): pop the first victim in
registry order whose cell matches; `none` when no victim is on the cell. -/
def pickVictim : List Entity → Int → Int → Option (List Entity)
  | [], _, _ => none
  | v :: rest, x, y =>
    if v.x = x ∧ v.y = y then some rest
    else (pickVictim rest x y).map (fun l => v :: l)

/-- The NPC's move validity test (lines 295-298 and 362-365): in bounds and
neither a Building nor the Player. -/
def npcMoveValid (g : Game) (nx ny : Int) : Prop :=
  0 ≤ nx ∧ nx < (g.grid_width : Int) ∧ 0 ≤ ny ∧ ny < (g.grid_height : Int) ∧
  g.grid nx ny ≠ EntityType.BUILDING ∧ g.grid nx ny ≠ EntityType.PLAYER

instance (g : Game) (nx ny : Int) : Decidable (npcMoveValid g nx ny) := by
  unfold npcMoveValid; infer_instance

/-- Move commit of the carrying branch (lines 294-334): when the destination
is valid, clear the departed cell (restoring a Hospital there if one stands
on it), move the grid coordinates, pop a reached waypoint, drop off when on a
hospital while carrying, and stamp the NPC onto the grid. `stepped` is the
NPC after `seek` and `update_position`. -/
noncomputable def Game.npcCommitCarrying (g : Game) (stepped : Entity) (wp : Cell)
    (nx ny : Int) : Game :=
  if npcMoveValid g nx ny then
    let is_current_hospital :=
      g.hospitals.any (fun h => h.x == stepped.x && h.y == stepped.y)
    let grid1 :=
      if is_current_hospital then setCell g.grid stepped.x stepped.y EntityType.HOSPITAL
      else setCell g.grid stepped.x stepped.y EntityType.EMPTY
    let npc2 := { stepped with x := nx, y := ny }
    let npc3 :=
      if nx = wp.1 ∧ ny = wp.2 then { npc2 with path := npc2.path.tail } else npc2
    let is_at_hospital := g.hospitals.any (fun h => h.x == npc3.x && h.y == npc3.y)
    let dropped := is_at_hospital && npc3.carrying_victim
    let npc4 :=
      if dropped then
        { npc3 with carrying_victim := false, path := [],
                    state := EntityState.GOING_TO_VICTIM }
      else npc3
    let rc := if dropped then g.rescued_count + 1 else g.rescued_count
    let grid2 := setCell grid1 npc4.x npc4.y EntityType.NPC
    { g with grid := grid2, npc := npc4, rescued_count := rc }
  else { g with npc := stepped }

/-- Move commit of the seeking branch (lines 361-385): when the destination is
valid, clear the departed cell to Empty (no hospital restore in this branch),
move the grid coordinates, pop a reached waypoint, pick up the first victim
on the new cell when not carrying (remove it from the registry, set carrying,
clear path, head to hospital), and stamp the NPC onto the grid. -/
noncomputable def Game.npcCommitSeeking (g : Game) (stepped : Entity) (wp : Cell)
    (nx ny : Int) : Game :=
  if npcMoveValid g nx ny then
    let grid1 := setCell g.grid stepped.x stepped.y EntityType.EMPTY
    let npc2 := { stepped with x := nx, y := ny }
    let npc3 :=
      if nx = wp.1 ∧ ny = wp.2 then { npc2 with path := npc2.path.tail } else npc2
    let picked :=
      if npc3.carrying_victim then (npc3, g.victims)
      else
        match pickVictim g.victims npc3.x npc3.y with
        | some vs2 =>
          ({ npc3 with carrying_victim := true, path := [],
                       state := EntityState.GOING_TO_HOSPITAL }, vs2)
        | none => (npc3, g.victims)
    let grid2 := setCell grid1 picked.1.x picked.1.y EntityType.NPC
    { g with grid := grid2, npc := picked.1, victims := picked.2 }
  else { g with npc := stepped }

/-- `Game.update_npc` (lines 267-385), one NPC tick:
carrying branch (271-334): retarget the nearest hospital, lazily (re)plan via
BFS, seek the next waypoint, and commit the move (`npcCommitCarrying`);
seeking branch (335-385): same pipeline toward the nearest victim, with the
seeking move commit (`npcCommitSeeking`). -/
noncomputable def Game.update_npc (g : Game) : Game :=
  if g.npc.carrying_victim then
    let npc := { g.npc with state := EntityState.GOING_TO_HOSPITAL }
    match get_nearest_hospital g.hospitals npc with
    | none => { g with npc := npc }
    | some hosp =>
      let npc :=
        if npc.path = [] ∨ npc.target ≠ some (hosp.x, hosp.y) then
          { npc with target := some (hosp.x, hosp.y),
                     path := bfs_pathfinding g.grid_width g.grid_height g.grid
                               npc.x npc.y hosp.x hosp.y }
        else npc
      match npc.path with
      | [] => { g with npc := npc }
      | wp :: _ =>
        let stepped := (npc.seek wp).update_position
        match stepped.2 with
        | none => { g with npc := stepped.1 }
        | some (nx, ny) => g.npcCommitCarrying stepped.1 wp nx ny
  else
    let npc := { g.npc with state := EntityState.GOING_TO_VICTIM }
    match get_nearest_victim g.victims npc with
    | none => { g with npc := npc }
    | some vic =>
      let npc :=
        if npc.path = [] ∨ npc.target ≠ some (vic.x, vic.y) then
          { npc with target := some (vic.x, vic.y),
                     path := bfs_pathfinding g.grid_width g.grid_height g.grid
                               npc.x npc.y vic.x vic.y }
        else npc
      match npc.path with
      | [] => { g with npc := npc }
      | wp :: _ =>
        let stepped := (npc.seek wp).update_position
        match stepped.2 with
        | none => { g with npc := stepped.1 }
        | some (nx, ny) => g.npcCommitSeeking stepped.1 wp nx ny

/-- `Game.move_player` (lines 387-434): one grid step of the player, rejected
when out of bounds or onto a Building or the NPC; restores a Hospital cell on
departure; picks up a victim on the destination cell; drops off (increment
`rescued_count`) when carrying and the destination is a hospital. -/
def Game.move_player (g : Game) (dx dy : Int) : Game :=
  let new_x := g.player.x + dx
  let new_y := g.player.y + dy
  if 0 ≤ new_x ∧ new_x < (g.grid_width : Int) ∧ 0 ≤ new_y ∧ new_y < (g.grid_height : Int) ∧
      g.grid new_x new_y ≠ EntityType.BUILDING ∧ g.grid new_x new_y ≠ EntityType.NPC then
    let is_destination_hospital :=
      g.hospitals.any (fun h => h.x == new_x && h.y == new_y)
    let is_current_hospital :=
      g.hospitals.any (fun h => h.x == g.player.x && h.y == g.player.y)
    let grid1 :=
      if is_current_hospital then
        setCell g.grid g.player.x g.player.y EntityType.HOSPITAL
      else
        setCell g.grid g.player.x g.player.y EntityType.EMPTY
    let player2 := { g.player with x := new_x, y := new_y }
    let picked :=
      if player2.carrying_victim then (player2, g.victims)
      else
        match pickVictim g.victims player2.x player2.y with
        | some vs2 => ({ player2 with carrying_victim := true }, vs2)
        | none => (player2, g.victims)
    let dropped := picked.1.carrying_victim && is_destination_hospital
    let player4 :=
      if dropped then { picked.1 with carrying_victim := false } else picked.1
    let rc := if dropped then g.rescued_count + 1 else g.rescued_count
    let grid2 := setCell grid1 player4.x player4.y EntityType.PLAYER
    { g with grid := grid2, player := player4, victims := picked.2, rescued_count := rc }
  else g

/-! ## Specification-side notions for the BFS claims -/

/-- 4-connected adjacency through the fixed direction list. -/
def adjacent (a b : Cell) : Prop := ∃ d ∈ directions, b = nbr a d

instance (a b : Cell) : Decidable (adjacent a b) := by
  unfold adjacent; infer_instance

/-- `ReachN W H gr s n c`: there is a walk of exactly `n` 4-connected hops from
`s` to `c` in which every cell after `s` is passable (in bounds, not a
Building) — exactly the moves the BFS explores. -/
inductive ReachN (W H : Nat) (gr : Int → Int → EntityType) (s : Cell) : Nat → Cell → Prop where
  | refl : ReachN W H gr s 0 s
  | step {n : Nat} {c c' : Cell} :
      ReachN W H gr s n c → adjacent c c' → passable W H gr c' →
      ReachN W H gr s (n + 1) c'

/-- `HopDist W H gr s t n`: `n` is the minimum 4-connected hop count from `s`
to `t` over passable cells. -/
def HopDist (W H : Nat) (gr : Int → Int → EntityType) (s t : Cell) (n : Nat) : Prop :=
  IsLeast {m | ReachN W H gr s m t} n

/-- `pathOk W H gr c l t`: the cell list `l` is a walk starting adjacent to
`c` (exclusive) and ending at `t` (inclusive), each step 4-connected onto a
passable cell; `l = []` forces `t = c`. -/
def pathOk (W H : Nat) (gr : Int → Int → EntityType) : Cell → List Cell → Cell → Prop
  | c, [], t => t = c
  | c, x :: xs, t => adjacent c x ∧ passable W H gr x ∧ pathOk W H gr x xs t

/-- The finite set of in-bounds cells, for the fuel argument. -/
def cellFinset (W H : Nat) : Finset Cell :=
  Finset.Icc (0 : Int) ((W : Int) - 1) ×ˢ Finset.Icc (0 : Int) ((H : Int) - 1)

/-! ## Lemmas about the visited association list -/

theorem lookupV_eq_none_iff (v : List (Cell × Option Cell)) (c : Cell) :
    lookupV v c = none ↔ c ∉ keysOf v := by
  induction v with
  | nil => simp [lookupV, keysOf]
  | cons kp rest ih =>
    obtain ⟨k, p⟩ := kp
    by_cases h : c = k
    · subst h; simp [lookupV, keysOf]
    · simp [lookupV, keysOf, h, ih, Ne.symm h]

theorem mem_keysOf_of_lookupV {v : List (Cell × Option Cell)} {c : Cell} {p : Option Cell}
    (h : lookupV v c = some p) : c ∈ keysOf v := by
  by_contra hc
  rw [← lookupV_eq_none_iff] at hc
  rw [hc] at h
  exact Option.noConfusion h

theorem lookupV_append_of_some {A : List (Cell × Option Cell)} {c : Cell} {p : Option Cell}
    (B : List (Cell × Option Cell)) (h : lookupV A c = some p) :
    lookupV (A ++ B) c = some p := by
  induction A with
  | nil => exact Option.noConfusion h
  | cons kp rest ih =>
    obtain ⟨k, q⟩ := kp
    by_cases hc : c = k
    · subst hc; simpa [lookupV] using h
    · simp only [lookupV, if_neg hc] at h ⊢
      exact ih h

theorem lookupV_append_of_none {A : List (Cell × Option Cell)} {c : Cell}
    (B : List (Cell × Option Cell)) (h : lookupV A c = none) :
    lookupV (A ++ B) c = lookupV B c := by
  induction A with
  | nil => simp
  | cons kp rest ih =>
    obtain ⟨k, q⟩ := kp
    by_cases hc : c = k
    · subst hc; simp [lookupV] at h
    · simp only [lookupV, if_neg hc] at h ⊢
      exact ih h

theorem keysOf_append (A B : List (Cell × Option Cell)) :
    keysOf (A ++ B) = keysOf A ++ keysOf B := by
  simp [keysOf]

theorem keysOf_pairs (fresh : List Cell) (c : Cell) :
    keysOf (fresh.map (fun z => (z, some c))) = fresh := by
  induction fresh with
  | nil => rfl
  | cons a rest ih => simpa [keysOf] using ih

theorem lookupV_pairs_of_mem (c : Cell) : ∀ {fresh : List Cell} {x : Cell}, x ∈ fresh →
    lookupV (fresh.map (fun z => (z, some c))) x = some (some c) := by
  intro fresh
  induction fresh with
  | nil => intro x hx; cases hx
  | cons a rest ih =>
    intro x hx
    by_cases h : x = a
    · subst h; simp [lookupV]
    · simp only [List.map_cons, lookupV, if_neg h]
      exact ih ((List.mem_cons.mp hx).resolve_left h)

theorem lookupV_pairs_inv (c : Cell) : ∀ {fresh : List Cell} {x : Cell} {y : Option Cell},
    lookupV (fresh.map (fun z => (z, some c))) x = some y → x ∈ fresh ∧ y = some c := by
  intro fresh
  induction fresh with
  | nil => intro x y h; exact Option.noConfusion h
  | cons a rest ih =>
    intro x y h
    by_cases hx : x = a
    · subst hx
      simp [lookupV] at h
      exact ⟨List.mem_cons_self _ _, h.symm⟩
    · simp only [List.map_cons, lookupV, if_neg hx] at h
      exact ⟨List.mem_cons_of_mem _ (ih h).1, (ih h).2⟩

/-! ## Lemmas about reachability and hop distance -/

theorem ReachN.prepend {W H : Nat} {gr : Int → Int → EntityType} {s x t : Cell} {m : Nat}
    (h : ReachN W H gr x m t) (hadj : adjacent s x) (hpass : passable W H gr x) :
    ReachN W H gr s (m + 1) t := by
  induction h with
  | refl => exact (ReachN.refl).step hadj hpass
  | step _ hadj' hpass' ih => exact ih.step hadj' hpass'

theorem reachN_zero {W H : Nat} {gr : Int → Int → EntityType} {s c : Cell}
    (h : ReachN W H gr s 0 c) : c = s := by
  cases h; rfl

theorem reachN_succ_inv {W H : Nat} {gr : Int → Int → EntityType} {s c : Cell} {n : Nat}
    (h : ReachN W H gr s (n + 1) c) :
    ∃ p, ReachN W H gr s n p ∧ adjacent p c ∧ passable W H gr c := by
  cases h with
  | step hp hadj hpass => exact ⟨_, hp, hadj, hpass⟩

theorem reachN_target_cases {W H : Nat} {gr : Int → Int → EntityType} {s c : Cell} {n : Nat}
    (h : ReachN W H gr s n c) : c = s ∨ passable W H gr c := by
  cases h with
  | refl => exact Or.inl rfl
  | step _ _ hpass => exact Or.inr hpass

theorem hopDist_unique {W H : Nat} {gr : Int → Int → EntityType} {s t : Cell} {n m : Nat}
    (h1 : HopDist W H gr s t n) (h2 : HopDist W H gr s t m) : n = m :=
  h1.unique h2

theorem hopDist_exists {W H : Nat} {gr : Int → Int → EntityType} {s t : Cell} {m : Nat}
    (h : ReachN W H gr s m t) : ∃ n, HopDist W H gr s t n := by
  refine ⟨sInf {m | ReachN W H gr s m t}, Nat.sInf_mem ⟨m, h⟩, ?_⟩
  intro k hk
  exact Nat.sInf_le hk

theorem hopDist_self (W H : Nat) (gr : Int → Int → EntityType) (s : Cell) :
    HopDist W H gr s s 0 :=
  ⟨ReachN.refl, fun _ _ => Nat.zero_le _⟩

theorem hopDist_zero_eq {W H : Nat} {gr : Int → Int → EntityType} {s t : Cell}
    (h : HopDist W H gr s t 0) : t = s :=
  reachN_zero h.1

theorem hopDist_succ_ne {W H : Nat} {gr : Int → Int → EntityType} {s t : Cell} {n : Nat}
    (h : HopDist W H gr s t (n + 1)) : t ≠ s := by
  intro he
  subst he
  exact Nat.succ_ne_zero n (hopDist_unique h (hopDist_self W H gr t))

theorem hopDist_le_of_reach {W H : Nat} {gr : Int → Int → EntityType} {s t : Cell} {n m : Nat}
    (h : HopDist W H gr s t n) (hr : ReachN W H gr s m t) : n ≤ m :=
  h.2 hr

theorem hopDist_step_le {W H : Nat} {gr : Int → Int → EntityType} {s c x : Cell} {k : Nat}
    (hc : HopDist W H gr s c k) (hadj : adjacent c x) (hpass : passable W H gr x) :
    ∃ m, HopDist W H gr s x m ∧ m ≤ k + 1 := by
  have hr : ReachN W H gr s (k + 1) x := hc.1.step hadj hpass
  obtain ⟨m, hm⟩ := hopDist_exists hr
  exact ⟨m, hm, hopDist_le_of_reach hm hr⟩

theorem hopDist_succ_pred {W H : Nat} {gr : Int → Int → EntityType} {s t : Cell} {k : Nat}
    (h : HopDist W H gr s t (k + 1)) :
    ∃ c, HopDist W H gr s c k ∧ adjacent c t ∧ passable W H gr t := by
  obtain ⟨p, hp, hadj, hpass⟩ := reachN_succ_inv h.1
  obtain ⟨j, hj⟩ := hopDist_exists hp
  have hjk : j ≤ k := hopDist_le_of_reach hj hp
  rcases Nat.lt_or_ge j k with hlt | hge
  · exfalso
    have : ReachN W H gr s (j + 1) t := hj.1.step hadj hpass
    have := hopDist_le_of_reach h this
    omega
  · have : j = k := le_antisymm hjk hge
    subst this
    exact ⟨p, hj, hadj, hpass⟩

/-! ## Lemmas about walks (`pathOk`) -/

theorem pathOk_append_single {W H : Nat} {gr : Int → Int → EntityType} {s b c : Cell}
    {L : List Cell} (h : pathOk W H gr s L b) (hadj : adjacent b c)
    (hpass : passable W H gr c) : pathOk W H gr s (L ++ [c]) c := by
  induction L generalizing s with
  | nil =>
    obtain rfl := h
    exact ⟨hadj, hpass, rfl⟩
  | cons a L ih =>
    obtain ⟨h1, h2, h3⟩ := h
    exact ⟨h1, h2, ih h3⟩

theorem pathOk_reachN {W H : Nat} {gr : Int → Int → EntityType} {s t : Cell} {L : List Cell}
    (h : pathOk W H gr s L t) : ReachN W H gr s L.length t := by
  induction L generalizing s with
  | nil => obtain rfl := h; exact ReachN.refl
  | cons a L ih =>
    obtain ⟨h1, h2, h3⟩ := h
    exact (ih h3).prepend h1 h2

/-! ## The BFS visited table: well-formed parent pointers -/

/-- Well-formedness of the BFS `visited` dict: keys are unique, the start maps
to `None`, and every other entry's parent is itself a key, one hop closer to
the start. -/
structure VisitedOk (W H : Nat) (gr : Int → Int → EntityType) (s : Cell)
    (visited : List (Cell × Option Cell)) : Prop where
  nodup : (keysOf visited).Nodup
  start_entry : lookupV visited s = some none
  parentOk : ∀ c p, lookupV visited c = some (some p) →
      p ∈ keysOf visited ∧ adjacent p c ∧ passable W H gr c ∧
      ∃ m, HopDist W H gr s p m ∧ HopDist W H gr s c (m + 1)
  entries : ∀ c ∈ keysOf visited, c ≠ s → ∃ p, lookupV visited c = some (some p)

/-- Correctness of the parent-pointer reconstruction: for a visited cell at hop
distance `n`, `backChain` (with fuel at least `n`) returns the reversed walk of
length exactly `n`. -/
theorem backChain_spec {W H : Nat} {gr : Int → Int → EntityType} {s : Cell}
    {visited : List (Cell × Option Cell)} (hv : VisitedOk W H gr s visited) :
    ∀ (n : Nat) (c : Cell) (f : Nat), c ∈ keysOf visited → HopDist W H gr s c n → n ≤ f →
      (backChain visited s c f).length = n ∧
      pathOk W H gr s (backChain visited s c f).reverse c := by
  intro n
  induction n with
  | zero =>
    intro c f _ hd _
    obtain rfl := hopDist_zero_eq hd
    cases f with
    | zero => exact ⟨rfl, rfl⟩
    | succ f => simp [backChain, pathOk]
  | succ n ih =>
    intro c f hc hd hf
    have hcs : c ≠ s := hopDist_succ_ne hd
    obtain ⟨p, hp⟩ := hv.entries c hc hcs
    obtain ⟨hpmem, hadj, hpass, m, hdp, hdc⟩ := hv.parentOk c p hp
    have hm : m = n := by
      have := hopDist_unique hdc hd; omega
    subst hm
    cases f with
    | zero => omega
    | succ f =>
      have hrec := ih p f hpmem hdp (by omega)
      simp only [backChain, if_neg hcs, hp]
      refine ⟨by simp [hrec.1], ?_⟩
      rw [List.reverse_cons]
      exact pathOk_append_single hrec.2 hadj hpass

/-- The hop distance of any visited cell is below the size of the visited
table (so the reconstruction fuel `visited.length` always suffices). -/
theorem hopDist_lt_visited {W H : Nat} {gr : Int → Int → EntityType} {s : Cell}
    {visited : List (Cell × Option Cell)} (hv : VisitedOk W H gr s visited) :
    ∀ (n : Nat) (c : Cell), c ∈ keysOf visited → HopDist W H gr s c n →
      n < visited.length := by
  have key : ∀ (n : Nat) (c : Cell), c ∈ keysOf visited → HopDist W H gr s c n →
      ∃ L : List Cell, L.length = n ∧ L.Nodup ∧ s ∉ L ∧
        ∀ x ∈ L, x ∈ keysOf visited ∧ ∃ m, HopDist W H gr s x m ∧ 1 ≤ m ∧ m ≤ n := by
    intro n
    induction n with
    | zero => intro c _ _; exact ⟨[], rfl, List.nodup_nil, by simp, by simp⟩
    | succ n ih =>
      intro c hc hd
      have hcs : c ≠ s := hopDist_succ_ne hd
      obtain ⟨p, hp⟩ := hv.entries c hc hcs
      obtain ⟨hpmem, hadj, hpass, m, hdp, hdc⟩ := hv.parentOk c p hp
      have hm : n = m := by
        have := hopDist_unique hdc hd; omega
      subst hm
      obtain ⟨L, hlen, hnd, hs, hmem⟩ := ih p hpmem hdp
      refine ⟨c :: L, by simp [hlen], ?_, ?_, ?_⟩
      · refine List.nodup_cons.mpr ⟨?_, hnd⟩
        intro hcL
        obtain ⟨_, m', hm', h1, h2⟩ := hmem c hcL
        have := hopDist_unique hm' hd
        omega
      · simp only [List.mem_cons, not_or]
        exact ⟨Ne.symm hcs, hs⟩
      · intro x hx
        rcases List.mem_cons.mp hx with hxc | hx
        · subst hxc
          exact ⟨hc, n + 1, hd, by omega, le_refl _⟩
        · obtain ⟨hxk, m', hm', h1, h2⟩ := hmem x hx
          exact ⟨hxk, m', hm', h1, by omega⟩
  intro n c hc hd
  obtain ⟨L, hlen, hnd, hs, hmem⟩ := key n c hc hd
  have hsub : insert s L.toFinset ⊆ (keysOf visited).toFinset := by
    intro x hx
    rcases Finset.mem_insert.mp hx with rfl | hx
    · exact List.mem_toFinset.mpr (mem_keysOf_of_lookupV hv.start_entry)
    · exact List.mem_toFinset.mpr (hmem x (List.mem_toFinset.mp hx)).1
  have h1 : (insert s L.toFinset).card = n + 1 := by
    rw [Finset.card_insert_of_not_mem (by simpa using hs), List.toFinset_card_of_nodup hnd,
      hlen]
  have h2 := Finset.card_le_card hsub
  have h3 : (keysOf visited).toFinset.card ≤ (keysOf visited).length :=
    List.toFinset_card_le _
  have h4 : (keysOf visited).length = visited.length := by simp [keysOf]
  omega

/-! ## The BFS loop invariant -/

theorem mem_cellFinset {W H : Nat} {c : Cell} : c ∈ cellFinset W H ↔ inBounds W H c := by
  obtain ⟨x, y⟩ := c
  simp only [cellFinset, inBounds, Finset.mem_product, Finset.mem_Icc]
  omega

theorem card_cellFinset (W H : Nat) : (cellFinset W H).card = W * H := by
  rw [cellFinset, Finset.card_product, Int.card_Icc, Int.card_Icc]
  have h1 : ((W : Int) - 1 + 1 - 0).toNat = W := by omega
  have h2 : ((H : Int) - 1 + 1 - 0).toNat = H := by omega
  rw [h1, h2]

/-- The invariant of the `while queue` loop: the visited table is well formed;
the queue splits into a layer of cells at hop distance `k` followed by a layer
at `k + 1`, and every cell at distance at most `k` has been visited; queue
cells are visited and unique; dequeued (visited, no longer queued) cells have
all their passable neighbors visited; the target has not been dequeued yet;
and the fuel dominates the queue plus the unvisited in-bounds cells. -/
structure BfsInv (W H : Nat) (gr : Int → Int → EntityType) (s t : Cell)
    (fuel : Nat) (queue : List Cell) (visited : List (Cell × Option Cell)) : Prop where
  vok : VisitedOk W H gr s visited
  layer : ∃ k q1 q2, queue = q1 ++ q2 ∧
      (∀ c ∈ q1, HopDist W H gr s c k) ∧
      (∀ c ∈ q2, HopDist W H gr s c (k + 1)) ∧
      (∀ c m, m ≤ k → HopDist W H gr s c m → c ∈ keysOf visited)
  queue_sub : ∀ c ∈ queue, c ∈ keysOf visited
  queue_nodup : queue.Nodup
  closed : ∀ c ∈ keysOf visited, c ∉ queue →
      ∀ c', adjacent c c' → passable W H gr c' → c' ∈ keysOf visited
  pending : lookupV visited t = none ∨ t ∈ queue
  fuel_ok : queue.length +
      ((cellFinset W H).filter (fun c => c ∉ keysOf visited)).card ≤ fuel

/-- A set of cells containing the start and closed under passable steps
contains every reachable cell. -/
theorem closed_reach {W H : Nat} {gr : Int → Int → EntityType} {s : Cell} {K : List Cell}
    (hs : s ∈ K)
    (hcl : ∀ c ∈ K, ∀ c', adjacent c c' → passable W H gr c' → c' ∈ K) :
    ∀ {m : Nat} {c : Cell}, ReachN W H gr s m c → c ∈ K := by
  intro m c h
  induction h with
  | refl => exact hs
  | step _ hadj hpass ih => exact hcl _ ih _ hadj hpass

/-- With a reachable target, the queue cannot be empty: the target would have
been dequeued already, and the loop would have returned. -/
theorem inv_empty_queue_absurd {W H : Nat} {gr : Int → Int → EntityType} {s t : Cell}
    {fuel : Nat} {visited : List (Cell × Option Cell)} {n : Nat}
    (inv : BfsInv W H gr s t fuel [] visited) (hd : HopDist W H gr s t n) : False := by
  rcases inv.pending with hnone | hmem
  · have hs : s ∈ keysOf visited := mem_keysOf_of_lookupV inv.vok.start_entry
    have hmem : t ∈ keysOf visited :=
      closed_reach hs
        (fun c hc c' hadj hp => inv.closed c hc (List.not_mem_nil c) c' hadj hp) hd.1
    exact ((lookupV_eq_none_iff _ _).mp hnone) hmem
  · exact (List.not_mem_nil t) hmem

/-- Normalization at a dequeue: the head of the queue sits at some exact layer
distance `k`, the rest splits into the `k` and `k + 1` layers, and every cell
at distance at most `k` is already visited (when the head opens a new layer
this is the layer-completion argument). -/
theorem inv_dequeue {W H : Nat} {gr : Int → Int → EntityType} {s t : Cell}
    {fuel : Nat} {c : Cell} {rest : List Cell} {visited : List (Cell × Option Cell)}
    (inv : BfsInv W H gr s t fuel (c :: rest) visited) :
    ∃ k q1 q2, rest = q1 ++ q2 ∧ HopDist W H gr s c k ∧
      (∀ x ∈ q1, HopDist W H gr s x k) ∧
      (∀ x ∈ q2, HopDist W H gr s x (k + 1)) ∧
      (∀ x m, m ≤ k → HopDist W H gr s x m → x ∈ keysOf visited) := by
  obtain ⟨k, q1, q2, hq, h1, h2, hlv⟩ := inv.layer
  cases q1 with
  | cons a q1' =>
    rw [List.cons_append] at hq
    obtain ⟨rfl, hrest⟩ : a = c ∧ q1' ++ q2 = rest := by
      constructor
      · exact (List.cons.injEq _ _ _ _ ▸ hq).1.symm
      · exact ((List.cons.injEq _ _ _ _ ▸ hq).2).symm
    exact ⟨k, q1', q2, hrest.symm, h1 a (List.mem_cons_self _ _),
      fun x hx => h1 x (List.mem_cons_of_mem _ hx), h2, hlv⟩
  | nil =>
    rw [List.nil_append] at hq
    subst hq
    refine ⟨k + 1, rest, [], by simp, h2 c (List.mem_cons_self _ _),
      fun x hx => h2 x (List.mem_cons_of_mem _ hx), by simp, ?_⟩
    intro x m hm hd
    rcases Nat.lt_or_ge m (k + 1) with hlt | hge
    · exact hlv x m (by omega) hd
    · have hmk : m = k + 1 := by omega
      subst hmk
      obtain ⟨c₀, hc₀, hadj, hpass⟩ := hopDist_succ_pred hd
      have hc₀k : c₀ ∈ keysOf visited := hlv c₀ k (le_refl _) hc₀
      have hc₀q : c₀ ∉ c :: rest := by
        intro hmem
        have := h2 c₀ hmem
        have := hopDist_unique hc₀ this
        omega
      exact inv.closed c₀ hc₀k hc₀q x hadj hpass

/-- Net effect of the inner `for dx, dy in directions` loop: it appends a
block of fresh cells (adjacent to the dequeued cell, passable, unvisited,
without duplicates) to both the queue and the visited table, and afterwards
every passable neighbor of the dequeued cell is either previously visited or
in the fresh block. -/
theorem foldVisit_spec (W H : Nat) (gr : Int → Int → EntityType) (c : Cell) :
    ∀ (ds : List (Int × Int)) (rest : List Cell) (visited : List (Cell × Option Cell)),
    ∃ fresh : List Cell,
      ds.foldl (bfsVisit W H gr c) (rest, visited) =
        (rest ++ fresh, visited ++ fresh.map (fun z => (z, some c))) ∧
      fresh.Nodup ∧
      (∀ x ∈ fresh, (∃ d ∈ ds, x = nbr c d) ∧ passable W H gr x ∧ x ∉ keysOf visited) ∧
      (∀ d ∈ ds, passable W H gr (nbr c d) →
        nbr c d ∈ keysOf visited ∨ nbr c d ∈ fresh) := by
  intro ds
  induction ds with
  | nil =>
    intro rest visited
    exact ⟨[], by simp, List.nodup_nil, by simp, by simp⟩
  | cons d ds ih =>
    intro rest visited
    by_cases hcond : passable W H gr (nbr c d) ∧ lookupV visited (nbr c d) = none
    · have hstep : bfsVisit W H gr c (rest, visited) d =
          (rest ++ [nbr c d], visited ++ [(nbr c d, some c)]) := by
        simp only [bfsVisit, if_pos hcond]
      obtain ⟨fresh, hfold, hnd, hmem, hcover⟩ :=
        ih (rest ++ [nbr c d]) (visited ++ [(nbr c d, some c)])
      have hkeys1 : keysOf (visited ++ [(nbr c d, some c)]) =
          keysOf visited ++ [nbr c d] := by
        simp [keysOf]
      refine ⟨nbr c d :: fresh, ?_, ?_, ?_, ?_⟩
      · rw [List.foldl_cons, hstep, hfold]
        simp
      · refine List.nodup_cons.mpr ⟨?_, hnd⟩
        intro hin
        have := (hmem _ hin).2.2
        rw [hkeys1] at this
        exact this (List.mem_append_right _ (List.mem_singleton.mpr rfl))
      · intro x hx
        rcases List.mem_cons.mp hx with hxc | hx
        · subst hxc
          exact ⟨⟨d, List.mem_cons_self _ _, rfl⟩, hcond.1,
            (lookupV_eq_none_iff _ _).mp hcond.2⟩
        · obtain ⟨⟨d', hd', hxd⟩, hpass, hxk⟩ := hmem x hx
          refine ⟨⟨d', List.mem_cons_of_mem _ hd', hxd⟩, hpass, ?_⟩
          rw [hkeys1] at hxk
          intro hxorig
          exact hxk (List.mem_append_left _ hxorig)
      · intro d' hd' hpass'
        rcases List.mem_cons.mp hd' with hdd | hd'
        · subst hdd
          exact Or.inr (List.mem_cons_self _ _)
        · rcases hcover d' hd' hpass' with hk | hf
          · rw [hkeys1] at hk
            rcases List.mem_append.mp hk with hk | hk
            · exact Or.inl hk
            · exact Or.inr (by
                rw [List.mem_singleton.mp hk]
                exact List.mem_cons_self _ _)
          · exact Or.inr (List.mem_cons_of_mem _ hf)
    · have hstep : bfsVisit W H gr c (rest, visited) d = (rest, visited) := by
        simp only [bfsVisit, if_neg hcond]
      obtain ⟨fresh, hfold, hnd, hmem, hcover⟩ := ih rest visited
      refine ⟨fresh, by rw [List.foldl_cons, hstep]; exact hfold, hnd, ?_, ?_⟩
      · intro x hx
        obtain ⟨⟨d', hd', hxd⟩, hpass, hxk⟩ := hmem x hx
        exact ⟨⟨d', List.mem_cons_of_mem _ hd', hxd⟩, hpass, hxk⟩
      · intro d' hd' hpass'
        rcases List.mem_cons.mp hd' with hdd | hd'
        · subst hdd
          have : lookupV visited (nbr c d') ≠ none := by
            intro hnone
            exact hcond ⟨hpass', hnone⟩
          left
          by_contra hk
          exact this ((lookupV_eq_none_iff _ _).mpr hk)
        · exact hcover d' hd' hpass'

/-- One non-target iteration of the `while queue` loop preserves the
invariant, burning one unit of fuel. -/
theorem inv_preserved {W H : Nat} {gr : Int → Int → EntityType} {s t : Cell}
    {fuel : Nat} {c : Cell} {rest : List Cell} {visited : List (Cell × Option Cell)}
    (inv : BfsInv W H gr s t (fuel + 1) (c :: rest) visited) (hct : c ≠ t) :
    BfsInv W H gr s t fuel
      (directions.foldl (bfsVisit W H gr c) (rest, visited)).1
      (directions.foldl (bfsVisit W H gr c) (rest, visited)).2 := by
  obtain ⟨k, q1, q2, hrest, hck, hq1, hq2, hlv⟩ := inv_dequeue inv
  obtain ⟨fresh, hfold, hfnd, hfmem, hfcover⟩ := foldVisit_spec W H gr c directions rest visited
  rw [hfold]
  have hcmem : c ∈ keysOf visited := inv.queue_sub c (List.mem_cons_self _ _)
  have hkeys : keysOf (visited ++ fresh.map (fun z => (z, some c))) =
      keysOf visited ++ fresh := by
    rw [keysOf_append, keysOf_pairs]
  have freshDist : ∀ x ∈ fresh, HopDist W H gr s x (k + 1) := by
    intro x hx
    obtain ⟨⟨d, hd, rfl⟩, hpass, hxk⟩ := hfmem x hx
    have hadj : adjacent c (nbr c d) := ⟨d, hd, rfl⟩
    obtain ⟨m, hm, hmle⟩ := hopDist_step_le hck hadj hpass
    rcases Nat.lt_or_ge m (k + 1) with hlt | _
    · exact absurd (hlv _ m (by omega) hm) hxk
    · have hmk : m = k + 1 := by omega
      subst hmk
      exact hm
  have freshAdj : ∀ x ∈ fresh, adjacent c x := by
    intro x hx
    obtain ⟨⟨d, hd, rfl⟩, _, _⟩ := hfmem x hx
    exact ⟨d, hd, rfl⟩
  have freshPass : ∀ x ∈ fresh, passable W H gr x := fun x hx => (hfmem x hx).2.1
  have freshNotK : ∀ x ∈ fresh, x ∉ keysOf visited := fun x hx => (hfmem x hx).2.2
  have restSub : ∀ x ∈ rest, x ∈ keysOf visited :=
    fun x hx => inv.queue_sub x (List.mem_cons_of_mem _ hx)
  have hdisj : ∀ x ∈ keysOf visited, x ∉ fresh :=
    fun x hxk hxf => freshNotK x hxf hxk
  refine ⟨⟨?_, ?_, ?_, ?_⟩, ?_, ?_, ?_, ?_, ?_, ?_⟩
  · -- nodup keys
    rw [hkeys]
    exact inv.vok.nodup.append hfnd hdisj
  · -- start entry
    exact lookupV_append_of_some _ inv.vok.start_entry
  · -- parentOk
    intro c' p hp
    cases hold : lookupV visited c' with
    | some q =>
      have := lookupV_append_of_some (fresh.map (fun z => (z, some c))) hold
      rw [this] at hp
      obtain rfl : q = some p := Option.some.inj hp
      obtain ⟨h1, h2, h3, m, h4, h5⟩ := inv.vok.parentOk c' p hold
      exact ⟨by rw [hkeys]; exact List.mem_append_left _ h1, h2, h3, m, h4, h5⟩
    | none =>
      rw [lookupV_append_of_none _ hold] at hp
      obtain ⟨hcf, hpc⟩ := lookupV_pairs_inv c hp
      obtain rfl : p = c := Option.some.inj hpc
      exact ⟨by rw [hkeys]; exact List.mem_append_left _ hcmem,
        freshAdj c' hcf, freshPass c' hcf, k, hck, freshDist c' hcf⟩
  · -- entries
    intro c' hc' hc's
    rw [hkeys] at hc'
    rcases List.mem_append.mp hc' with hc' | hc'
    · obtain ⟨p, hp⟩ := inv.vok.entries c' hc' hc's
      exact ⟨p, lookupV_append_of_some _ hp⟩
    · refine ⟨c, ?_⟩
      rw [lookupV_append_of_none _ ((lookupV_eq_none_iff _ _).mpr (freshNotK c' hc'))]
      exact lookupV_pairs_of_mem c hc'
  · -- layer
    refine ⟨k, q1, q2 ++ fresh, by rw [hrest, List.append_assoc], hq1, ?_, ?_⟩
    · intro x hx
      rcases List.mem_append.mp hx with hx | hx
      · exact hq2 x hx
      · exact freshDist x hx
    · intro x m hm hd
      rw [hkeys]
      exact List.mem_append_left _ (hlv x m hm hd)
  · -- queue_sub
    intro x hx
    rw [hkeys]
    rcases List.mem_append.mp hx with hx | hx
    · exact List.mem_append_left _ (restSub x hx)
    · exact List.mem_append_right _ hx
  · -- queue_nodup
    exact (inv.queue_nodup.of_cons).append hfnd
      (fun x hxr hxf => freshNotK x hxf (restSub x hxr))
  · -- closed
    intro x hx hxq c' hadj hpass
    rw [hkeys] at hx ⊢
    rcases List.mem_append.mp hx with hx | hx
    · by_cases hxc : x = c
      · subst hxc
        obtain ⟨d, hd, rfl⟩ := hadj
        rcases hfcover d hd hpass with hk | hf
        · exact List.mem_append_left _ hk
        · exact List.mem_append_right _ hf
      · have hxold : x ∉ c :: rest := by
          intro hmem
          rcases List.mem_cons.mp hmem with h | h
          · exact hxc h
          · exact hxq (List.mem_append_left _ h)
        exact List.mem_append_left _ (inv.closed x hx hxold c' hadj hpass)
    · exact absurd (List.mem_append_right rest hx) hxq
  · -- pending
    rcases inv.pending with hnone | hmem
    · by_cases htf : t ∈ fresh
      · exact Or.inr (List.mem_append_right _ htf)
      · refine Or.inl ?_
        rw [lookupV_append_of_none _ hnone, lookupV_eq_none_iff, keysOf_pairs]
        exact htf
    · rcases List.mem_cons.mp hmem with h | h
      · exact absurd h.symm hct
      · exact Or.inr (List.mem_append_left _ h)
  · -- fuel
    have hsub : fresh.toFinset ⊆ (cellFinset W H).filter (fun x => x ∉ keysOf visited) := by
      intro x hx
      rw [List.mem_toFinset] at hx
      rw [Finset.mem_filter]
      exact ⟨mem_cellFinset.mpr (freshPass x hx).1, freshNotK x hx⟩
    have hfilter : (cellFinset W H).filter
          (fun x => x ∉ keysOf (visited ++ fresh.map (fun z => (z, some c)))) =
        ((cellFinset W H).filter (fun x => x ∉ keysOf visited)) \ fresh.toFinset := by
      ext x
      rw [Finset.mem_filter, Finset.mem_sdiff, Finset.mem_filter, List.mem_toFinset, hkeys,
        List.mem_append]
      tauto
    have hcard : ((cellFinset W H).filter
          (fun x => x ∉ keysOf (visited ++ fresh.map (fun z => (z, some c))))).card =
        ((cellFinset W H).filter (fun x => x ∉ keysOf visited)).card - fresh.length := by
      rw [hfilter, Finset.card_sdiff hsub, List.toFinset_card_of_nodup hfnd]
    have hle : fresh.length ≤ ((cellFinset W H).filter (fun x => x ∉ keysOf visited)).card := by
      rw [← List.toFinset_card_of_nodup hfnd]
      exact Finset.card_le_card hsub
    have hold := inv.fuel_ok
    rw [hcard]
    simp only [List.length_append, List.length_cons] at hold ⊢
    omega

/-- Main loop correctness: under the invariant, when the target is reachable
the loop returns a passable walk from the start to the target whose length is
exactly the minimum hop count. -/
theorem bfsLoop_correct {W H : Nat} {gr : Int → Int → EntityType} {s t : Cell} :
    ∀ (fuel : Nat) (queue : List Cell) (visited : List (Cell × Option Cell)),
      BfsInv W H gr s t fuel queue visited →
      ∀ n, HopDist W H gr s t n →
        (bfsLoop W H gr s t fuel queue visited).length = n ∧
        pathOk W H gr s (bfsLoop W H gr s t fuel queue visited) t := by
  intro fuel
  induction fuel with
  | zero =>
    intro queue visited inv n hd
    exfalso
    have hq : queue = [] := by
      have := inv.fuel_ok
      cases queue with
      | nil => rfl
      | cons a b => simp at this
    subst hq
    exact inv_empty_queue_absurd inv hd
  | succ fuel ih =>
    intro queue visited inv n hd
    cases queue with
    | nil => exact absurd hd (fun hd => inv_empty_queue_absurd inv hd)
    | cons c rest =>
      by_cases hct : c = t
      · subst hct
        have hck : c ∈ keysOf visited := inv.queue_sub _ (List.mem_cons_self _ _)
        have hnlt : n < visited.length := hopDist_lt_visited inv.vok n c hck hd
        have hrec := backChain_spec inv.vok n c visited.length hck hd (by omega)
        simp only [bfsLoop, if_pos rfl]
        exact ⟨by simp [hrec.1], hrec.2⟩
      · have inv' := inv_preserved inv hct
        have hres := ih _ _ inv' n hd
        simp only [bfsLoop, if_neg hct]
        exact hres

/-- The invariant holds at loop entry (queue `[start]`, visited
`{start ↦ None}`, fuel `grid_width * grid_height + 1`). -/
theorem bfs_init_inv (W H : Nat) (gr : Int → Int → EntityType) (s t : Cell) :
    BfsInv W H gr s t (W * H + 1) [s] [(s, none)] := by
  refine ⟨⟨?_, ?_, ?_, ?_⟩, ?_, ?_, ?_, ?_, ?_, ?_⟩
  · simp [keysOf]
  · simp [lookupV]
  · intro c p h
    by_cases hc : c = s
    · subst hc; simp [lookupV] at h
    · simp [lookupV, hc] at h
  · intro c hc hcs
    simp [keysOf] at hc
    exact absurd hc hcs
  · refine ⟨0, [s], [], by simp, ?_, by simp, ?_⟩
    · intro c hc
      rw [List.mem_singleton.mp hc]
      exact hopDist_self W H gr s
    · intro c m hm hd
      have hm0 : m = 0 := by omega
      subst hm0
      rw [hopDist_zero_eq hd]
      simp [keysOf]
  · intro c hc
    rw [List.mem_singleton.mp hc]
    simp [keysOf]
  · simp
  · intro c hc hcq
    exfalso
    simp [keysOf] at hc
    exact hcq (by rw [hc]; exact List.mem_singleton.mpr rfl)
  · by_cases hts : t = s
    · exact Or.inr (by rw [hts]; exact List.mem_singleton.mpr rfl)
    · exact Or.inl (by simp [lookupV, hts])
  · have hle : ((cellFinset W H).filter (fun c => c ∉ keysOf [(s, none)])).card ≤ W * H := by
      calc ((cellFinset W H).filter (fun c => c ∉ keysOf [(s, none)])).card
          ≤ (cellFinset W H).card := Finset.card_filter_le _ _
        _ = W * H := card_cellFinset W H
    simp only [List.length_singleton]
    omega

/-- When no walk reaches the target, the loop exhausts the reachable region
and returns the empty list (it never dequeues the target). -/
theorem bfsLoop_unreachable {W H : Nat} {gr : Int → Int → EntityType} {s t : Cell} :
    ∀ (fuel : Nat) (queue : List Cell) (visited : List (Cell × Option Cell)),
      (∀ c ∈ keysOf visited, ∃ m, ReachN W H gr s m c) →
      (∀ c ∈ queue, c ∈ keysOf visited) →
      (∀ n, ¬ ReachN W H gr s n t) →
      bfsLoop W H gr s t fuel queue visited = [] := by
  intro fuel
  induction fuel with
  | zero => intro queue visited _ _ _; rfl
  | succ fuel ih =>
    intro queue visited hreach hsub hnr
    cases queue with
    | nil => rfl
    | cons c rest =>
      have hct : c ≠ t := by
        intro h
        subst h
        obtain ⟨m, hm⟩ := hreach c (hsub c (List.mem_cons_self _ _))
        exact hnr m hm
      simp only [bfsLoop, if_neg hct]
      obtain ⟨fresh, hfold, _, hfmem, _⟩ := foldVisit_spec W H gr c directions rest visited
      rw [hfold]
      obtain ⟨mc, hmc⟩ := hreach c (hsub c (List.mem_cons_self _ _))
      apply ih
      · intro x hx
        rw [keysOf_append, keysOf_pairs] at hx
        rcases List.mem_append.mp hx with hx | hx
        · exact hreach x hx
        · obtain ⟨⟨d, hd, rfl⟩, hpass, _⟩ := hfmem x hx
          exact ⟨mc + 1, hmc.step ⟨d, hd, rfl⟩ hpass⟩
      · intro x hx
        rw [keysOf_append, keysOf_pairs]
        rcases List.mem_append.mp hx with hx | hx
        · exact List.mem_append_left _ (hsub x (List.mem_cons_of_mem _ hx))
        · exact List.mem_append_right _ hx
      · exact hnr

/-- `bfs_pathfinding` returns the empty sequence whenever the target is not
reachable from the start over passable cells (and, being a total function, it
never throws). -/
theorem bfs_unreachable_empty (W H : Nat) (gr : Int → Int → EntityType) (s t : Cell)
    (hnr : ∀ n, ¬ ReachN W H gr s n t) :
    bfs_pathfinding W H gr s.1 s.2 t.1 t.2 = [] := by
  apply bfsLoop_unreachable (W * H + 1) [s] [(s, none)]
  · intro c hc
    simp [keysOf] at hc
    subst hc
    exact ⟨0, ReachN.refl⟩
  · intro c hc
    rw [List.mem_singleton.mp hc]
    simp [keysOf]
  · exact hnr

/-- With an empty in-flight path, the seeking NPC re-targets: it re-runs the
nearest-victim selection, stores the victim's cell as target, recomputes the
BFS path, and — when that path is empty — moves nowhere and changes nothing
else, so the next tick re-targets again instead of looping on a stale path. -/
theorem update_npc_retarget (g : Game) (v : Entity)
    (h1 : g.npc.carrying_victim = false)
    (h2 : g.npc.path = [])
    (h3 : get_nearest_victim g.victims
        { g.npc with state := EntityState.GOING_TO_VICTIM } = some v)
    (h4 : bfs_pathfinding g.grid_width g.grid_height g.grid g.npc.x g.npc.y v.x v.y = []) :
    g.update_npc = { g with npc :=
      { g.npc with state := EntityState.GOING_TO_VICTIM
                   target := some (v.x, v.y)
                   path := ([] : List Cell) } } := by
  unfold Game.update_npc
  rw [h1]
  simp only [Bool.false_eq_true, if_false, h3]
  simp only [h2, true_or, if_pos, h4]

/-! ## Concrete fixtures for witnesses and counterexamples -/

/-- A victim parked on cell `(0, 1)`. -/
noncomputable def vic1 : Entity := Entity.make 0 1 EntityType.VICTIM

/-- An NPC on cell `(0, 0)`, already seeking, targeting `(0, 1)`, empty path,
zero velocity. -/
noncomputable def npc1 : Entity :=
  { Entity.make 0 0 EntityType.NPC with
      state := EntityState.GOING_TO_VICTIM
      target := some (0, 1) }

/-- A 1×2 grid where cell `(0, 1)` is a Building. -/
def grid1 : Int → Int → EntityType :=
  fun x y => if x = 0 ∧ y = 1 then EntityType.BUILDING else EntityType.EMPTY

/-- A game whose only victim is walled in: the NPC's target is unreachable,
so the BFS path is empty every tick and the NPC never moves. -/
noncomputable def g1 : Game :=
  { grid_width := 1, grid_height := 2, grid := grid1, victims := [vic1],
    hospitals := [], player := Entity.make 0 0 EntityType.PLAYER, npc := npc1,
    rescued_count := 0, total_victims := 1 }

theorem g1_fixed : g1.update_npc = g1 := by
  have h := update_npc_retarget g1 vic1 rfl rfl rfl rfl
  rw [h]
  rfl

/-! ## Claim C1 -/

/-- **C1.** For every start cell and goal cell on the grid such that the goal
is reachable through 4-connected moves over non-Building, in-bounds cells
(`ReachN`, whose step relation treats exactly Building and out-of-bounds cells
as impassable and lets cells holding dynamic entities pass), `bfs_pathfinding`
returns an ordered sequence of cells from the start (exclusive) to the goal
(inclusive) — a walk of adjacent passable cells ending at the goal
(`pathOk`) — whose length equals the minimum 4-connected hop count
(`HopDist`).  The result is a pure function of the grid computed with the
fixed neighbor order up, right, down, left (`directions`), hence
deterministic among equal-length paths. -/
theorem c1_bfs_shortest_path (W H : Nat) (gr : Int → Int → EntityType) (s t : Cell)
    (hreach : ∃ n, ReachN W H gr s n t) :
    ∃ n, HopDist W H gr s t n ∧
      (bfs_pathfinding W H gr s.1 s.2 t.1 t.2).length = n ∧
      pathOk W H gr s (bfs_pathfinding W H gr s.1 s.2 t.1 t.2) t := by
  obtain ⟨m, hm⟩ := hreach
  obtain ⟨n, hd⟩ := hopDist_exists hm
  have h := bfsLoop_correct (W * H + 1) [s] [(s, none)] (bfs_init_inv W H gr s t) n hd
  exact ⟨n, hd, h.1, h.2⟩

/-- Witness for C1 on a concrete 2×1 empty grid: the goal one hop to the right
is reachable, and the theorem yields the one-hop shortest path. -/
theorem c1_bfs_shortest_path_witness :
    (∃ n, ReachN 2 1 (fun _ _ => EntityType.EMPTY) (0, 0) n (1, 0)) ∧
    (∃ n, HopDist 2 1 (fun _ _ => EntityType.EMPTY) (0, 0) (1, 0) n ∧
      (bfs_pathfinding 2 1 (fun _ _ => EntityType.EMPTY) 0 0 1 0).length = n ∧
      pathOk 2 1 (fun _ _ => EntityType.EMPTY) (0, 0)
        (bfs_pathfinding 2 1 (fun _ _ => EntityType.EMPTY) 0 0 1 0) (1, 0)) := by
  have hr : ReachN 2 1 (fun _ _ => EntityType.EMPTY) (0, 0) 1 (1, 0) :=
    ReachN.refl.step (by decide) (by decide)
  exact ⟨⟨1, hr⟩, c1_bfs_shortest_path 2 1 (fun _ _ => EntityType.EMPTY) (0, 0) (1, 0) ⟨1, hr⟩⟩

/-! ## Claim C5 -/

/-- **C5.** For every start/goal pair where the goal is unreachable over
passable cells, `bfs_pathfinding` returns the empty sequence (and, being a
total function, never throws); and an NPC holding an empty path falls back to
re-targeting on the next cycle instead of looping forever: with an empty path
it re-runs nearest-victim selection, re-stores the target, recomputes the BFS
path, and when that path is empty the tick changes nothing else (no movement),
so every following tick re-targets again. -/
theorem c5_unreachable_empty_and_fallback :
    (∀ (W H : Nat) (gr : Int → Int → EntityType) (s t : Cell),
        (∀ n, ¬ ReachN W H gr s n t) →
        bfs_pathfinding W H gr s.1 s.2 t.1 t.2 = []) ∧
    (∀ (g : Game) (v : Entity),
        g.npc.carrying_victim = false →
        g.npc.path = [] →
        get_nearest_victim g.victims
          { g.npc with state := EntityState.GOING_TO_VICTIM } = some v →
        bfs_pathfinding g.grid_width g.grid_height g.grid g.npc.x g.npc.y v.x v.y = [] →
        g.update_npc = { g with npc :=
          { g.npc with state := EntityState.GOING_TO_VICTIM
                       target := some (v.x, v.y)
                       path := ([] : List Cell) } }) :=
  ⟨bfs_unreachable_empty, update_npc_retarget⟩

/-- Witness for C5: a 1×1 grid with an out-of-bounds goal is unreachable and
the BFS returns `[]`; and on the concrete game `g1` (victim walled in, NPC
path empty) the tick only re-targets. -/
theorem c5_unreachable_empty_and_fallback_witness :
    bfs_pathfinding 1 1 (fun _ _ => EntityType.EMPTY) 0 0 5 5 = [] ∧
    g1.update_npc = { g1 with npc :=
      { g1.npc with state := EntityState.GOING_TO_VICTIM
                    target := some (vic1.x, vic1.y)
                    path := ([] : List Cell) } } := by
  constructor
  · apply c5_unreachable_empty_and_fallback.1 1 1 (fun _ _ => EntityType.EMPTY) (0, 0) (5, 5)
    intro n hn
    rcases reachN_target_cases hn with h | h
    · exact absurd h (by decide)
    · exact absurd h (by decide)
  · exact c5_unreachable_empty_and_fallback.2 g1 vic1 rfl rfl rfl rfl

/-! ## Registry and pickup lemmas -/

/-- The nearest-entity scan only ever returns a scanned entity or the running
best from the accumulator. -/
theorem nearestScan_mem (ex ey : Int) :
    ∀ (l : List Entity) (acc : Option (Entity × Nat)) (v : Entity),
      nearestScan ex ey l acc = some v → v ∈ l ∨ ∃ d, acc = some (v, d) := by
  intro l
  induction l with
  | nil =>
    intro acc v h
    cases acc with
    | none => exact Option.noConfusion h
    | some b =>
      obtain ⟨bv, bd⟩ := b
      simp only [nearestScan, Option.map_some'] at h
      obtain rfl := Option.some.inj h
      exact Or.inr ⟨bd, rfl⟩
  | cons a rest ih =>
    intro acc v h
    cases acc with
    | none =>
      rcases ih _ v h with hv | ⟨d, hd⟩
      · exact Or.inl (List.mem_cons_of_mem _ hv)
      · obtain ⟨rfl, _⟩ := Prod.mk.injEq _ _ _ _ ▸ Option.some.inj hd
        exact Or.inl (List.mem_cons_self _ _)
    | some b =>
      obtain ⟨bv, bd⟩ := b
      simp only [nearestScan] at h
      split at h
      · rcases ih _ v h with hv | ⟨d, hd⟩
        · exact Or.inl (List.mem_cons_of_mem _ hv)
        · obtain ⟨rfl, _⟩ := Prod.mk.injEq _ _ _ _ ▸ Option.some.inj hd
          exact Or.inl (List.mem_cons_self _ _)
      · rcases ih _ v h with hv | ⟨d, hd⟩
        · exact Or.inl (List.mem_cons_of_mem _ hv)
        · obtain ⟨rfl, _⟩ := Prod.mk.injEq _ _ _ _ ▸ Option.some.inj hd
          exact Or.inr ⟨bd, rfl⟩

/-- `get_nearest_victim` only returns members of the victim registry: a victim
absent from the registry can never be selected as a target. -/
theorem get_nearest_victim_mem {vs : List Entity} {e v : Entity}
    (h : get_nearest_victim vs e = some v) : v ∈ vs := by
  unfold get_nearest_victim at h
  split at h
  · exact Option.noConfusion h
  · rcases nearestScan_mem e.x e.y vs none v h with hv | ⟨d, hd⟩
    · exact hv
    · exact Option.noConfusion hd

/-- The pickup scan returns `none` exactly when no registry victim sits on the
cell. -/
theorem pickVictim_eq_none {vs : List Entity} {x y : Int} :
    pickVictim vs x y = none ↔ ∀ w ∈ vs, ¬(w.x = x ∧ w.y = y) := by
  induction vs with
  | nil => simp [pickVictim]
  | cons v rest ih =>
    by_cases h : v.x = x ∧ v.y = y
    · simp [pickVictim, h]
    · simp [pickVictim, if_neg h, Option.map_eq_none', ih]
      exact fun _ hx hy => h ⟨hx, hy⟩

/-- A successful pickup removes exactly one victim from the registry. -/
theorem pickVictim_length {x y : Int} :
    ∀ {vs vs' : List Entity}, pickVictim vs x y = some vs' →
      vs'.length + 1 = vs.length := by
  intro vs
  induction vs with
  | nil => intro vs' h; exact Option.noConfusion h
  | cons v rest ih =>
    intro vs' h
    by_cases hv : v.x = x ∧ v.y = y
    · simp only [pickVictim, if_pos hv] at h
      obtain rfl := Option.some.inj h
      simp
    · simp only [pickVictim, if_neg hv] at h
      cases hrest : pickVictim rest x y with
      | none => rw [hrest] at h; exact Option.noConfusion h
      | some vs2 =>
        rw [hrest] at h
        obtain rfl := Option.some.inj h
        have := ih hrest
        simp only [List.length_cons]
        omega

/-- After a pickup on a registry whose victims occupy pairwise-distinct cells,
no remaining registry victim sits on the picked cell. -/
theorem pickVictim_removes {x y : Int} :
    ∀ {vs vs' : List Entity},
      vs.Pairwise (fun a b => ¬(a.x = b.x ∧ a.y = b.y)) →
      pickVictim vs x y = some vs' →
      ∀ w ∈ vs', ¬(w.x = x ∧ w.y = y) := by
  intro vs
  induction vs with
  | nil => intro vs' _ h; exact Option.noConfusion h
  | cons v rest ih =>
    intro vs' hnd h
    rw [List.pairwise_cons] at hnd
    by_cases hv : v.x = x ∧ v.y = y
    · simp only [pickVictim, if_pos hv] at h
      obtain rfl := Option.some.inj h
      intro w hw hwxy
      exact hnd.1 w hw ⟨by rw [hv.1, hwxy.1], by rw [hv.2, hwxy.2]⟩
    · simp only [pickVictim, if_neg hv] at h
      cases hrest : pickVictim rest x y with
      | none => rw [hrest] at h; exact Option.noConfusion h
      | some vs2 =>
        rw [hrest] at h
        obtain rfl := Option.some.inj h
        intro w hw
        rcases List.mem_cons.mp hw with hwv | hw
        · rw [hwv]; exact hv
        · exact ih hnd.2 hrest w hw

/-- The carrying-branch move commit never touches the victim registry. -/
theorem npcCommitCarrying_victims (g : Game) (stepped : Entity) (wp : Cell) (nx ny : Int) :
    (g.npcCommitCarrying stepped wp nx ny).victims = g.victims := by
  simp only [Game.npcCommitCarrying]
  repeat' split
  all_goals rfl

/-- The seeking-branch move commit leaves the registry unchanged or removes
exactly the first victim on the entered cell via `pickVictim`. -/
theorem npcCommitSeeking_victims (g : Game) (stepped : Entity) (wp : Cell) (nx ny : Int) :
    (g.npcCommitSeeking stepped wp nx ny).victims = g.victims ∨
    ∃ x y vs', pickVictim g.victims x y = some vs' ∧
      (g.npcCommitSeeking stepped wp nx ny).victims = vs' := by
  simp only [Game.npcCommitSeeking]
  repeat' split
  all_goals first
    | (left; rfl)
    | (rename_i heq; exact Or.inr ⟨_, _, _, heq, rfl⟩)

/-- An NPC tick mutates the victim registry only through `pickVictim`: the
registry is unchanged, or exactly the first victim of the entered cell has
been removed at the instant of pickup. -/
theorem update_npc_victims (g : Game) :
    (g.update_npc).victims = g.victims ∨
    ∃ x y vs', pickVictim g.victims x y = some vs' ∧ (g.update_npc).victims = vs' := by
  simp only [Game.update_npc]
  repeat' split
  all_goals first
    | (left; rfl)
    | (exact Or.inl (npcCommitCarrying_victims g _ _ _ _))
    | (exact npcCommitSeeking_victims g _ _ _ _)

/-- The seeking-branch move commit never touches the rescued counter. -/
theorem npcCommitSeeking_rescued (g : Game) (stepped : Entity) (wp : Cell) (nx ny : Int) :
    (g.npcCommitSeeking stepped wp nx ny).rescued_count = g.rescued_count := by
  simp only [Game.npcCommitSeeking]
  repeat' split
  all_goals rfl

/-- A tick of an NPC that is not carrying never increments the rescued
counter: the drop-off logic is confined to the carrying branch. -/
theorem update_npc_rescued (g : Game) (h : g.npc.carrying_victim = false) :
    (g.update_npc).rescued_count = g.rescued_count := by
  simp only [Game.update_npc, h, Bool.false_eq_true, if_false]
  repeat' split
  all_goals first
    | rfl
    | (exact npcCommitSeeking_rescued g _ _ _ _)

/-- A player move that starts not carrying and whose destination cell holds no
victim performs no drop-off: the rescued counter, the victim registry, and the
carrying flag are all unchanged. -/
theorem move_player_no_dropoff (g : Game) (dx dy : Int)
    (h1 : g.player.carrying_victim = false)
    (h2 : ∀ w ∈ g.victims, ¬(w.x = g.player.x + dx ∧ w.y = g.player.y + dy)) :
    (g.move_player dx dy).rescued_count = g.rescued_count ∧
    (g.move_player dx dy).victims = g.victims ∧
    (g.move_player dx dy).player.carrying_victim = false := by
  have hpick : pickVictim g.victims (g.player.x + dx) (g.player.y + dy) = none :=
    pickVictim_eq_none.mpr h2
  simp only [Game.move_player]
  split
  · simp [h1, hpick]
  · exact ⟨rfl, rfl, h1⟩

/-! ## Vector-math lemmas for the steering controller -/

theorem Vec2.length_nonneg (v : Vec2) : 0 ≤ v.length := Real.sqrt_nonneg _

theorem Vec2.length_smul (v : Vec2) (s : ℝ) : (v * s).length = |s| * v.length := by
  show Real.sqrt ((v.x * s) ^ 2 + (v.y * s) ^ 2) = |s| * Real.sqrt (v.x ^ 2 + v.y ^ 2)
  rw [show (v.x * s) ^ 2 + (v.y * s) ^ 2 = s ^ 2 * (v.x ^ 2 + v.y ^ 2) by ring]
  rw [Real.sqrt_mul (sq_nonneg s), Real.sqrt_sq_eq_abs]

theorem Vec2.length_eq_zero_of_not_pos {v : Vec2} (h : ¬ 0 < v.length) :
    v.length = 0 :=
  le_antisymm (not_lt.mp h) (Vec2.length_nonneg v)

theorem normalize_length {v : Vec2} (h : 0 < v.length) : (normalize v).length = 1 := by
  have hL : v.length ^ 2 = v.x ^ 2 + v.y ^ 2 := Real.sq_sqrt (by positivity)
  have hL0 : v.length ≠ 0 := ne_of_gt h
  unfold normalize
  rw [if_pos h]
  show Real.sqrt ((v.x / v.length) ^ 2 + (v.y / v.length) ^ 2) = 1
  rw [div_pow, div_pow, div_add_div_same, ← hL, div_self (pow_ne_zero 2 hL0)]
  exact Real.sqrt_one

theorem normalize_of_not_pos {v : Vec2} (h : ¬ v.length > 0) : normalize v = v := by
  unfold normalize
  rw [if_neg h]

/-- `apply_force` clamps: for any force, the post-integration velocity
magnitude is at most `max_speed` (the force is added first, the clamp runs
after). -/
theorem apply_force_speed_le (e : Entity) (f : Vec2) (hms : 0 ≤ e.max_speed) :
    (e.apply_force f).velocity.length ≤ e.max_speed := by
  unfold Entity.apply_force
  by_cases h : (e.velocity + f).length > e.max_speed
  · rw [if_pos h]
    show (normalize (e.velocity + f) * e.max_speed).length ≤ e.max_speed
    rw [Vec2.length_smul, normalize_length (lt_of_le_of_lt hms h), mul_one,
      abs_of_nonneg hms]
  · rw [if_neg h]
    exact not_lt.mp h

/-- The clamped steering magnitude is bounded by the clamp bound. -/
theorem clamp_length_le (w : Vec2) (mf : ℝ) (hmf : 0 ≤ mf) :
    (normalize w * min mf w.length).length ≤ mf := by
  by_cases h : 0 < w.length
  · rw [Vec2.length_smul, normalize_length h, mul_one,
      abs_of_nonneg (le_min hmf (Vec2.length_nonneg w))]
    exact min_le_left _ _
  · rw [normalize_of_not_pos h, Vec2.length_smul, Vec2.length_eq_zero_of_not_pos h,
      mul_zero]
    exact hmf

/-- The steering force computed by `seek` has magnitude at most `max_force`. -/
theorem seekSteering_le (e : Entity) (t : Cell) (hmf : 0 ≤ e.max_force) :
    (seekSteering e t).length ≤ e.max_force := by
  unfold seekSteering
  exact clamp_length_le _ _ hmf

/-! ## Zero-vector lemmas -/

theorem Vec2.sub_self (v : Vec2) : v - v = Vec2.mk 0 0 := by
  show Vec2.mk (v.x - v.x) (v.y - v.y) = Vec2.mk 0 0
  simp

theorem zero_length : (Vec2.mk 0 0).length = 0 := by
  show Real.sqrt (0 ^ 2 + 0 ^ 2) = 0
  norm_num

theorem zero_smul_vec (s : ℝ) : (Vec2.mk 0 0) * s = Vec2.mk 0 0 := by
  show Vec2.mk (0 * s) (0 * s) = Vec2.mk 0 0
  simp

theorem normalize_zero : normalize (Vec2.mk 0 0) = Vec2.mk 0 0 :=
  normalize_of_not_pos (by rw [zero_length]; exact lt_irrefl 0)

theorem zero_add_zero_vec : (Vec2.mk 0 0) + (Vec2.mk 0 0) = Vec2.mk 0 0 := by
  show Vec2.mk (0 + 0) (0 + 0) = Vec2.mk 0 0
  simp

/-- `seek` is total at its degenerate input: an agent sitting exactly on the
target cell center with zero velocity gets a zero steering outcome, not a
division fault — the `normalize` guard absorbs the zero-length desired
vector. -/
theorem seek_at_target (e : Entity) (t : Cell)
    (hpos : e.position = cellCenter t) (hvel : e.velocity = Vec2.mk 0 0) :
    (e.seek t).velocity = Vec2.mk 0 0 := by
  unfold Entity.seek seekSteering Entity.apply_force
  simp only [hpos, hvel, Vec2.sub_self, zero_length, normalize_zero, zero_smul_vec]
  split
  · simp only [zero_smul_vec, Vec2.sub_self, zero_length, normalize_zero,
      zero_add_zero_vec]
    split
    · simp only [normalize_zero, zero_smul_vec]
    · rfl
  · simp only [zero_smul_vec, Vec2.sub_self, zero_length, normalize_zero,
      zero_add_zero_vec]
    split
    · simp only [normalize_zero, zero_smul_vec]
    · rfl

/-! ## Claim C4 -/

/-- **C4.** For every agent state and every applied force, a single
integration step (`apply_force`) leaves the velocity magnitude at most
`max_speed` (given the agent's nonnegative speed cap): the force is added to
the velocity first and the magnitude clamp runs afterward.  Additionally, the
steering force computed by `seek` (`seekSteering`) has magnitude at most
`max_force`, and consequently `seek`'s own integration step also respects
the speed cap. -/
theorem c4_velocity_clamped (e : Entity) (f : Vec2) (t : Cell)
    (hms : 0 ≤ e.max_speed) (hmf : 0 ≤ e.max_force) :
    (e.apply_force f).velocity.length ≤ e.max_speed ∧
    (seekSteering e t).length ≤ e.max_force ∧
    (e.seek t).velocity.length ≤ e.max_speed :=
  ⟨apply_force_speed_le e f hms, seekSteering_le e t hmf,
   apply_force_speed_le e (seekSteering e t) hms⟩

/-- Witness for C4 on a freshly constructed agent (`max_speed = 5`,
`max_force = 0.5`) hit by a large force. -/
theorem c4_velocity_clamped_witness :
    0 ≤ (Entity.make 0 0 EntityType.NPC).max_speed ∧
    0 ≤ (Entity.make 0 0 EntityType.NPC).max_force ∧
    (((Entity.make 0 0 EntityType.NPC).apply_force (Vec2.mk 100 0)).velocity.length ≤
        (Entity.make 0 0 EntityType.NPC).max_speed ∧
      (seekSteering (Entity.make 0 0 EntityType.NPC) (3, 0)).length ≤
        (Entity.make 0 0 EntityType.NPC).max_force ∧
      ((Entity.make 0 0 EntityType.NPC).seek (3, 0)).velocity.length ≤
        (Entity.make 0 0 EntityType.NPC).max_speed) := by
  have h1 : 0 ≤ (Entity.make 0 0 EntityType.NPC).max_speed := by
    show (0 : ℝ) ≤ 5
    norm_num
  have h2 : 0 ≤ (Entity.make 0 0 EntityType.NPC).max_force := by
    show (0 : ℝ) ≤ 0.5
    norm_num
  exact ⟨h1, h2, c4_velocity_clamped (Entity.make 0 0 EntityType.NPC) (Vec2.mk 100 0)
    (3, 0) h1 h2⟩

/-! ## Claim C8 -/

/-- **C8.** `normalize` applied to a zero-length vector resolves to the vector
itself (the zero vector) and never divides: the guard `length > 0` absorbs the
degenerate case.  Consequently `seek` (hence `apply_force`) is total even when
the agent sits exactly on its target cell center with zero velocity — the tick
produces a zero velocity, not a division fault. -/
theorem c8_normalize_zero_safe :
    normalize (Vec2.mk 0 0) = Vec2.mk 0 0 ∧
    (∀ v : Vec2, v.length = 0 → normalize v = v) ∧
    (∀ (e : Entity) (t : Cell), e.position = cellCenter t → e.velocity = Vec2.mk 0 0 →
      (e.seek t).velocity = Vec2.mk 0 0) :=
  ⟨normalize_zero, fun _ h => normalize_of_not_pos (by rw [h]; exact lt_irrefl 0),
   seek_at_target⟩

/-- Witness for C8: the zero vector, and a fresh agent parked on its own cell
center seeking its own cell. -/
theorem c8_normalize_zero_safe_witness :
    (Vec2.mk 0 0).length = 0 ∧
    normalize (Vec2.mk 0 0) = Vec2.mk 0 0 ∧
    (Entity.make 2 3 EntityType.NPC).position = cellCenter (2, 3) ∧
    (Entity.make 2 3 EntityType.NPC).velocity = Vec2.mk 0 0 ∧
    ((Entity.make 2 3 EntityType.NPC).seek (2, 3)).velocity = Vec2.mk 0 0 :=
  ⟨zero_length, c8_normalize_zero_safe.2.1 (Vec2.mk 0 0) zero_length, rfl, rfl,
   c8_normalize_zero_safe.2.2 (Entity.make 2 3 EntityType.NPC) (2, 3) rfl rfl⟩

/-! ## Claim C3 -/

/-- **C3.** Each victim is carried by at most one agent because pickup is
exclusive through the shared registry: an NPC tick either leaves the registry
unchanged or removes exactly the picked victim at the instant of pickup
(`pickVictim`); after a pickup on a registry with pairwise-distinct victim
cells, no registry member remains on the picked cell; and target selection
(`get_nearest_victim`) iterates only the registry, so it can never return the
picked victim — no other agent can target or pick it up. -/
theorem c3_single_pickup :
    (∀ g : Game, (g.update_npc).victims = g.victims ∨
        ∃ x y vs', pickVictim g.victims x y = some vs' ∧ (g.update_npc).victims = vs') ∧
    (∀ (vs vs' : List Entity) (x y : Int),
        vs.Pairwise (fun a b => ¬(a.x = b.x ∧ a.y = b.y)) →
        pickVictim vs x y = some vs' →
        ∀ w ∈ vs', ¬(w.x = x ∧ w.y = y)) ∧
    (∀ (vs : List Entity) (e v : Entity), get_nearest_victim vs e = some v → v ∈ vs) :=
  ⟨update_npc_victims, fun _ _ _ _ hnd h => pickVictim_removes hnd h,
   fun _ _ _ h => get_nearest_victim_mem h⟩

/-- Witness for C3 on the concrete game `g1` and its singleton registry. -/
theorem c3_single_pickup_witness :
    ((g1.update_npc).victims = g1.victims ∨
      ∃ x y vs', pickVictim g1.victims x y = some vs' ∧ (g1.update_npc).victims = vs') ∧
    ([vic1].Pairwise (fun a b => ¬(a.x = b.x ∧ a.y = b.y)) ∧
      pickVictim [vic1] 0 1 = some [] ∧
      ∀ w ∈ ([] : List Entity), ¬(w.x = 0 ∧ w.y = 1)) ∧
    (get_nearest_victim [vic1] npc1 = some vic1 ∧ vic1 ∈ [vic1]) := by
  have hnd : [vic1].Pairwise (fun a b => ¬(a.x = b.x ∧ a.y = b.y)) :=
    List.pairwise_singleton _ _
  have hpick : pickVictim [vic1] 0 1 = some [] := rfl
  exact ⟨c3_single_pickup.1 g1,
    ⟨hnd, hpick, c3_single_pickup.2.1 [vic1] [] 0 1 hnd hpick⟩,
    ⟨rfl, c3_single_pickup.2.2 [vic1] npc1 vic1 rfl⟩⟩

/-! ## Claim C7 -/

/-- A hospital entity on cell `(1, 0)`. -/
noncomputable def hos7 : Entity := Entity.make 1 0 EntityType.HOSPITAL

/-- A victim lying on the hospital cell `(1, 0)`. -/
noncomputable def vic7 : Entity := Entity.make 1 0 EntityType.VICTIM

def grid7 : Int → Int → EntityType := fun x y =>
  if x = 0 ∧ y = 0 then EntityType.PLAYER
  else if x = 1 ∧ y = 0 then EntityType.HOSPITAL
  else EntityType.EMPTY

/-- A 2×1 game: player on `(0, 0)`, hospital on `(1, 0)` with a victim lying
on the hospital cell. -/
noncomputable def g7 : Game :=
  { grid_width := 2, grid_height := 1, grid := grid7, victims := [vic7],
    hospitals := [hos7], player := Entity.make 0 0 EntityType.PLAYER,
    npc := Entity.make 0 0 EntityType.NPC, rescued_count := 0, total_victims := 1 }

/-- `g7` with an empty victim registry. -/
noncomputable def g7e : Game := { g7 with victims := [] }

/-- **C7 counterexample.** An agent that is *not* carrying reaches a hospital
cell, yet the rescued counter increments and the registry shrinks: in `g7` the
player (not carrying) steps onto hospital cell `(1, 0)` where a victim lies;
the move picks the victim up and the in-move drop-off check then fires on the
same tick, so `rescued_count` goes from 0 to 1 and the victim registry
empties — the claimed no-op fails as stated. -/
theorem c7_dropoff_counterexample :
    g7.player.carrying_victim = false ∧
    g7.rescued_count = 0 ∧
    (∃ h ∈ g7.hospitals, h.x = g7.player.x + 1 ∧ h.y = g7.player.y + 0) ∧
    (g7.move_player 1 0).rescued_count = 1 ∧
    (g7.move_player 1 0).victims = [] ∧
    g7.victims.length = 1 :=
  ⟨rfl, rfl, ⟨hos7, List.mem_singleton.mpr rfl, rfl, rfl⟩, rfl, rfl, rfl⟩

/-- **C7 (amended).** For every agent that is not carrying a victim, reaching
a hospital cell that holds no victim performs no drop-off: the rescued counter
is not incremented, the victim registry is unmodified, and the agent still
carries nothing; likewise a non-carrying NPC tick never increments the
rescued counter (the drop-off logic is confined to the carrying branch). -/
theorem c7_dropoff_noop (g : Game) (dx dy : Int)
    (hp : g.player.carrying_victim = false)
    (hv : ∀ w ∈ g.victims, ¬(w.x = g.player.x + dx ∧ w.y = g.player.y + dy))
    (hn : g.npc.carrying_victim = false) :
    ((g.move_player dx dy).rescued_count = g.rescued_count ∧
      (g.move_player dx dy).victims = g.victims ∧
      (g.move_player dx dy).player.carrying_victim = false) ∧
    (g.update_npc).rescued_count = g.rescued_count :=
  ⟨move_player_no_dropoff g dx dy hp hv, update_npc_rescued g hn⟩

/-- Witness for the amended C7: in `g7e` (no victims) the player steps onto
the hospital cell and nothing rescue-related changes; the NPC tick keeps the
counter too. -/
theorem c7_dropoff_noop_witness :
    g7e.player.carrying_victim = false ∧
    g7e.npc.carrying_victim = false ∧
    (((g7e.move_player 1 0).rescued_count = g7e.rescued_count ∧
      (g7e.move_player 1 0).victims = g7e.victims ∧
      (g7e.move_player 1 0).player.carrying_victim = false) ∧
    (g7e.update_npc).rescued_count = g7e.rescued_count) :=
  ⟨rfl, rfl, c7_dropoff_noop g7e 1 0 rfl (fun w hw => absurd hw (List.not_mem_nil w)) rfl⟩

/-! ## Concrete evaluation helpers for the steering pipeline -/

theorem length_axis {a : ℝ} (h : 0 ≤ a) : (Vec2.mk a 0).length = a := by
  show Real.sqrt (a ^ 2 + 0 ^ 2) = a
  rw [show a ^ 2 + 0 ^ 2 = a ^ 2 by ring, Real.sqrt_sq h]

theorem normalize_axis {a : ℝ} (h : 0 < a) : normalize (Vec2.mk a 0) = Vec2.mk 1 0 := by
  unfold normalize
  rw [length_axis h.le, if_pos h]
  show Vec2.mk (a / a) (0 / a) = Vec2.mk 1 0
  rw [div_self (ne_of_gt h), zero_div]

theorem grid_size_real : ((GRID_SIZE : Int) : ℝ) = 40 := by norm_num [GRID_SIZE]

/-- Evaluation of the steering force for a stationary agent an axis-aligned
stretch `a` (with `4 ≤ a < 40`) short of the waypoint center: arrival damping
applies (`a < GRID_SIZE`), the desired speed is `5 * (a / 40) ≥ 1/2`, so the
clamp saturates the steering at `max_force = 1/2` pointing right. -/
theorem seekSteering_axis_eval (e : Entity) (t : Cell) (a : ℝ)
    (hpos : cellCenter t - e.position = Vec2.mk a 0)
    (hvel : e.velocity = Vec2.mk 0 0)
    (hms : e.max_speed = 5) (hmf : e.max_force = 1 / 2)
    (ha4 : 4 ≤ a) (ha40 : a < 40) :
    seekSteering e t = Vec2.mk (1 / 2) 0 := by
  have h0a : (0 : ℝ) < a := by linarith
  simp only [seekSteering]
  rw [hpos, hvel, length_axis h0a.le, grid_size_real, if_pos ha40,
    normalize_axis h0a, hms, hmf]
  have hsteer : (Vec2.mk 1 0 * (5 : ℝ)) * (a / 40) - Vec2.mk 0 0 =
      Vec2.mk (a / 8) 0 := by
    show Vec2.mk (1 * 5 * (a / 40) - 0) (0 * 5 * (a / 40) - 0) = Vec2.mk (a / 8) 0
    rw [Vec2.mk.injEq]
    constructor <;> ring
  rw [hsteer, length_axis (by positivity), normalize_axis (by positivity),
    min_eq_left (by linarith : (1 / 2 : ℝ) ≤ a / 8)]
  show Vec2.mk (1 * (1 / 2)) (0 * (1 / 2)) = Vec2.mk (1 / 2) 0
  rw [Vec2.mk.injEq]
  constructor <;> ring

/-- `seek` under the same conditions: the clamped steering is applied to the
zero velocity and survives the speed clamp. -/
theorem seek_axis_eval (e : Entity) (t : Cell) (a : ℝ)
    (hpos : cellCenter t - e.position = Vec2.mk a 0)
    (hvel : e.velocity = Vec2.mk 0 0)
    (hms : e.max_speed = 5) (hmf : e.max_force = 1 / 2)
    (ha4 : 4 ≤ a) (ha40 : a < 40) :
    e.seek t = { e with velocity := Vec2.mk (1 / 2) 0 } := by
  unfold Entity.seek
  rw [seekSteering_axis_eval e t a hpos hvel hms hmf ha4 ha40]
  simp only [Entity.apply_force]
  rw [hvel]
  have hv : (Vec2.mk 0 0) + (Vec2.mk (1 / 2) 0) = Vec2.mk (1 / 2) 0 := by
    show Vec2.mk (0 + 1 / 2) (0 + 0) = Vec2.mk (1 / 2) 0
    norm_num
  rw [hv, hms]
  rw [if_neg (by rw [length_axis (by norm_num : (0:ℝ) ≤ 1 / 2)]; norm_num)]

/-- `seek` changes only the velocity. -/
theorem seek_fields (e : Entity) (t : Cell) :
    (e.seek t).x = e.x ∧ (e.seek t).y = e.y ∧ (e.seek t).position = e.position ∧
    (e.seek t).carrying_victim = e.carrying_victim ∧ (e.seek t).path = e.path ∧
    (e.seek t).state = e.state := by
  simp only [Entity.seek, Entity.apply_force]
  split <;> exact ⟨rfl, rfl, rfl, rfl, rfl, rfl⟩

/-- The entity returned by `update_position` is the input with the advanced
position — the grid-coordinate fields are untouched. -/
theorem update_position_fst (e : Entity) :
    (e.update_position).1 = { e with position := e.position + e.velocity } := by
  simp only [Entity.update_position]
  split <;> rfl

/-- Inversion of a committed `update_position` result: the advanced position,
the floor-division grid coordinates, and the fact that the cell changed. -/
theorem update_position_inv {e e' : Entity} {nx ny : Int}
    (h : e.update_position = (e', some (nx, ny))) :
    e' = { e with position := e.position + e.velocity } ∧
    nx = ⌊(e.position + e.velocity).x / ((GRID_SIZE : Int) : ℝ)⌋ ∧
    ny = ⌊(e.position + e.velocity).y / ((GRID_SIZE : Int) : ℝ)⌋ := by
  simp only [Entity.update_position] at h
  split at h
  · obtain ⟨h1, h2⟩ := Prod.mk.injEq _ _ _ _ ▸ h
    obtain ⟨h3, h4⟩ := Prod.mk.injEq _ _ _ _ ▸ Option.some.inj h2
    exact ⟨h1.symm, h3.symm, h4.symm⟩
  · exact absurd (Prod.mk.injEq _ _ _ _ ▸ h).2 (fun hh => Option.noConfusion hh)

/-- Evaluation form of `update_position` when the move changes cells. -/
theorem update_position_eval_some (e : Entity) (px py : ℝ) (nx ny : Int)
    (hpos : e.position + e.velocity = Vec2.mk px py)
    (hx : ⌊px / ((GRID_SIZE : Int) : ℝ)⌋ = nx)
    (hy : ⌊py / ((GRID_SIZE : Int) : ℝ)⌋ = ny)
    (hne : nx ≠ e.x ∨ ny ≠ e.y) :
    e.update_position = ({ e with position := Vec2.mk px py }, some (nx, ny)) := by
  simp only [Entity.update_position]
  rw [hpos]
  show (if ⌊px / ((GRID_SIZE : Int) : ℝ)⌋ ≠ e.x ∨ ⌊py / ((GRID_SIZE : Int) : ℝ)⌋ ≠ e.y
    then _ else _) = _
  rw [hx, hy, if_pos hne]

/-- Evaluation form of `update_position` when the grid cell is unchanged: the
position still advances, but no move is reported. -/
theorem update_position_eval_none (e : Entity) (px py : ℝ)
    (hpos : e.position + e.velocity = Vec2.mk px py)
    (hx : ⌊px / ((GRID_SIZE : Int) : ℝ)⌋ = e.x)
    (hy : ⌊py / ((GRID_SIZE : Int) : ℝ)⌋ = e.y) :
    e.update_position = ({ e with position := Vec2.mk px py }, none) := by
  simp only [Entity.update_position]
  rw [hpos]
  show (if ⌊px / ((GRID_SIZE : Int) : ℝ)⌋ ≠ e.x ∨ ⌊py / ((GRID_SIZE : Int) : ℝ)⌋ ≠ e.y
    then _ else _) = _
  rw [hx, hy, if_neg (by simp)]

/-! ## Pipeline lemmas for the seeking branch of `update_npc` -/

/-- A seeking tick whose computed destination cell did not change: the NPC
entity is replaced by the stepped entity (position and velocity advanced),
and nothing else happens — in particular no pickup check runs. -/
theorem update_npc_seek_nomove (g : Game) (v : Entity) (wp : Cell) (rest : List Cell)
    (e' : Entity)
    (h1 : g.npc.carrying_victim = false)
    (h2 : get_nearest_victim g.victims
        { g.npc with state := EntityState.GOING_TO_VICTIM } = some v)
    (h3 : g.npc.path = wp :: rest)
    (h4 : g.npc.target = some (v.x, v.y))
    (h5 : ({ g.npc with state := EntityState.GOING_TO_VICTIM }.seek wp).update_position =
        (e', none)) :
    g.update_npc = { g with npc := e' } := by
  have h2' : get_nearest_victim g.victims
      ⟨g.npc.x, g.npc.y, g.npc.etype, false, EntityState.GOING_TO_VICTIM,
        wp :: rest, some (v.x, v.y), g.npc.position, g.npc.velocity, g.npc.max_speed,
        g.npc.max_force⟩ = some v := by
    rw [← h1, ← h3, ← h4]
    exact h2
  have h5' : ((⟨g.npc.x, g.npc.y, g.npc.etype, false, EntityState.GOING_TO_VICTIM,
      wp :: rest, some (v.x, v.y), g.npc.position, g.npc.velocity, g.npc.max_speed,
      g.npc.max_force⟩ : Entity).seek wp).update_position = (e', none) := by
    rw [← h1, ← h3, ← h4]
    exact h5
  simp [Game.update_npc, h1, h3, h4, h2', h5']

/-- A seeking tick whose computed destination cell changed hands the stepped
entity to the move-commit stage. -/
theorem update_npc_seek_move (g : Game) (v : Entity) (wp : Cell) (rest : List Cell)
    (e' : Entity) (nx ny : Int)
    (h1 : g.npc.carrying_victim = false)
    (h2 : get_nearest_victim g.victims
        { g.npc with state := EntityState.GOING_TO_VICTIM } = some v)
    (h3 : g.npc.path = wp :: rest)
    (h4 : g.npc.target = some (v.x, v.y))
    (h5 : ({ g.npc with state := EntityState.GOING_TO_VICTIM }.seek wp).update_position =
        (e', some (nx, ny))) :
    g.update_npc = g.npcCommitSeeking e' wp nx ny := by
  have h2' : get_nearest_victim g.victims
      ⟨g.npc.x, g.npc.y, g.npc.etype, false, EntityState.GOING_TO_VICTIM,
        wp :: rest, some (v.x, v.y), g.npc.position, g.npc.velocity, g.npc.max_speed,
        g.npc.max_force⟩ = some v := by
    rw [← h1, ← h3, ← h4]
    exact h2
  have h5' : ((⟨g.npc.x, g.npc.y, g.npc.etype, false, EntityState.GOING_TO_VICTIM,
      wp :: rest, some (v.x, v.y), g.npc.position, g.npc.velocity, g.npc.max_speed,
      g.npc.max_force⟩ : Entity).seek wp).update_position = (e', some (nx, ny)) := by
    rw [← h1, ← h3, ← h4]
    exact h5
  simp [Game.update_npc, h1, h3, h4, h2', h5']

/-- Rejected move commit: keep the grid coordinates, keep the whole game
except that the NPC's continuous position/velocity were already advanced. -/
theorem npcCommitSeeking_invalid (g : Game) (e' : Entity) (wp : Cell) (nx ny : Int)
    (hval : ¬ npcMoveValid g nx ny) :
    g.npcCommitSeeking e' wp nx ny = { g with npc := e' } := by
  simp only [Game.npcCommitSeeking, if_neg hval]

/-- Accepted move commit with a victim on the destination cell and a
non-carrying NPC: the pickup fires — carrying set, registry popped, path
cleared, state flips to `GOING_TO_HOSPITAL`, grid coordinates updated. -/
theorem npcCommitSeeking_pickup (g : Game) (e' : Entity) (wp : Cell) (nx ny : Int)
    (vs' : List Entity)
    (hval : npcMoveValid g nx ny)
    (hcarry : e'.carrying_victim = false)
    (hpick : pickVictim g.victims nx ny = some vs') :
    (g.npcCommitSeeking e' wp nx ny).npc.carrying_victim = true ∧
    (g.npcCommitSeeking e' wp nx ny).npc.state = EntityState.GOING_TO_HOSPITAL ∧
    (g.npcCommitSeeking e' wp nx ny).npc.path = [] ∧
    (g.npcCommitSeeking e' wp nx ny).npc.x = nx ∧
    (g.npcCommitSeeking e' wp nx ny).npc.y = ny ∧
    (g.npcCommitSeeking e' wp nx ny).victims = vs' := by
  simp only [Game.npcCommitSeeking, if_pos hval]
  split
  · simp [hcarry, hpick]
  · simp [hcarry, hpick]

/-- Accepted move commit with no victim on the destination cell: no pickup,
grid coordinates updated, registry and carrying flag unchanged. -/
theorem npcCommitSeeking_nopick (g : Game) (e' : Entity) (wp : Cell) (nx ny : Int)
    (hval : npcMoveValid g nx ny)
    (hcarry : e'.carrying_victim = false)
    (hpick : pickVictim g.victims nx ny = none) :
    (g.npcCommitSeeking e' wp nx ny).npc.x = nx ∧
    (g.npcCommitSeeking e' wp nx ny).npc.y = ny ∧
    (g.npcCommitSeeking e' wp nx ny).npc.carrying_victim = false ∧
    (g.npcCommitSeeking e' wp nx ny).victims = g.victims := by
  simp only [Game.npcCommitSeeking, if_pos hval]
  split
  · simp [hcarry, hpick]
  · simp [hcarry, hpick]

/-- In the seeking branch the departed cell is always cleared to Empty —
the hospital-restore check of the carrying branch has no counterpart here. -/
theorem npcCommitSeeking_departed_cell (g : Game) (e' : Entity) (wp : Cell) (nx ny : Int)
    (hval : npcMoveValid g nx ny) (hne : ¬(e'.x = nx ∧ e'.y = ny)) :
    (g.npcCommitSeeking e' wp nx ny).grid e'.x e'.y = EntityType.EMPTY := by
  simp only [Game.npcCommitSeeking, if_pos hval]
  repeat' split
  all_goals simp [setCell, hne]

/-- The hospital list itself is never mutated by the carrying commit. -/
theorem npcCommitCarrying_hospitals (g : Game) (stepped : Entity) (wp : Cell)
    (nx ny : Int) :
    (g.npcCommitCarrying stepped wp nx ny).hospitals = g.hospitals := by
  simp only [Game.npcCommitCarrying]
  repeat' split
  all_goals rfl

/-- The hospital list itself is never mutated by the seeking commit. -/
theorem npcCommitSeeking_hospitals (g : Game) (stepped : Entity) (wp : Cell)
    (nx ny : Int) :
    (g.npcCommitSeeking stepped wp nx ny).hospitals = g.hospitals := by
  simp only [Game.npcCommitSeeking]
  repeat' split
  all_goals rfl

/-- The hospital list is never mutated by an NPC tick. -/
theorem update_npc_hospitals (g : Game) : (g.update_npc).hospitals = g.hospitals := by
  simp only [Game.update_npc]
  repeat' split
  all_goals first
    | rfl
    | (exact npcCommitCarrying_hospitals g _ _ _ _)
    | (exact npcCommitSeeking_hospitals g _ _ _ _)

/-! ## Claim C2 -/

/-- A victim on cell `(2, 0)` (pixel center `(100, 20)`). -/
noncomputable def vic2 : Entity := Entity.make 2 0 EntityType.VICTIM

/-- An NPC whose grid cell is `(2, 0)` and whose pixel position `(95, 20)` is
exactly 5 units from the victim's center; stationary, path `[(2, 0)]`. -/
noncomputable def npc2 : Entity :=
  { Entity.make 2 0 EntityType.NPC with
      state := EntityState.GOING_TO_VICTIM
      target := some (2, 0)
      path := [((2 : Int), (0 : Int))]
      position := Vec2.mk 95 20 }

noncomputable def g2 : Game :=
  { grid_width := 3, grid_height := 1, grid := fun _ _ => EntityType.EMPTY,
    victims := [vic2], hospitals := [], player := Entity.make 0 0 EntityType.PLAYER,
    npc := npc2, rescued_count := 0, total_victims := 1 }

/-- **C2 counterexample.** An agent 5 units from the target victim (well under
the claimed pickup radius of 20) does *not* transition on the next tick: in
`g2` the tick's movement keeps the NPC in the same grid cell, the ticked move
is reported as no cell change, and the pickup check never runs — the NPC still
carries nothing, the registry is untouched, and the state stays
`GOING_TO_VICTIM`.  There is no pickup radius in the code. -/
theorem c2_pickup_radius_counterexample :
    (vic2.position - g2.npc.position).length = 5 ∧
    (5 : ℝ) < 20 ∧
    g2.npc.carrying_victim = false ∧
    (g2.update_npc).npc.carrying_victim = false ∧
    (g2.update_npc).victims = g2.victims ∧
    (g2.update_npc).npc.state = EntityState.GOING_TO_VICTIM := by
  have hpos : cellCenter (2, 0) -
      ({ g2.npc with state := EntityState.GOING_TO_VICTIM } : Entity).position =
      Vec2.mk 5 0 := by
    show Vec2.mk (((2 * GRID_SIZE + GRID_SIZE / 2 : Int) : ℝ) - 95)
      (((0 * GRID_SIZE + GRID_SIZE / 2 : Int) : ℝ) - 20) = Vec2.mk 5 0
    rw [Vec2.mk.injEq]
    norm_num [GRID_SIZE]
  have hseek : ({ g2.npc with state := EntityState.GOING_TO_VICTIM } : Entity).seek (2, 0) =
      { ({ g2.npc with state := EntityState.GOING_TO_VICTIM } : Entity) with
          velocity := Vec2.mk (1 / 2) 0 } := by
    apply seek_axis_eval _ _ 5 hpos rfl rfl
    · show (0.5 : ℝ) = 1 / 2
      norm_num
    · norm_num
    · norm_num
  have hpos2 : ({ ({ g2.npc with state := EntityState.GOING_TO_VICTIM } : Entity) with
        velocity := Vec2.mk (1 / 2) 0 } : Entity).position +
      ({ ({ g2.npc with state := EntityState.GOING_TO_VICTIM } : Entity) with
        velocity := Vec2.mk (1 / 2) 0 } : Entity).velocity = Vec2.mk 95.5 20 := by
    show Vec2.mk (95 + 1 / 2) (20 + 0) = Vec2.mk 95.5 20
    rw [Vec2.mk.injEq]
    norm_num
  have hx : ⌊(95.5 : ℝ) / ((GRID_SIZE : Int) : ℝ)⌋ = (2 : Int) := by
    rw [grid_size_real, Int.floor_eq_iff]
    norm_num
  have hy : ⌊(20 : ℝ) / ((GRID_SIZE : Int) : ℝ)⌋ = (0 : Int) := by
    rw [grid_size_real, Int.floor_eq_iff]
    norm_num
  have h5 : (({ g2.npc with state := EntityState.GOING_TO_VICTIM } : Entity).seek
      (2, 0)).update_position =
      ({ ({ ({ g2.npc with state := EntityState.GOING_TO_VICTIM } : Entity) with
          velocity := Vec2.mk (1 / 2) 0 } : Entity) with
            position := Vec2.mk 95.5 20 }, none) := by
    rw [hseek]
    exact update_position_eval_none _ 95.5 20 hpos2 hx hy
  have hupd := update_npc_seek_nomove g2 vic2 (2, 0) [] _ rfl rfl rfl rfl h5
  refine ⟨?_, by norm_num, rfl, ?_, ?_, ?_⟩
  · rw [show vic2.position - g2.npc.position = Vec2.mk 5 0 from hpos]
    exact length_axis (by norm_num)
  · rw [hupd]
    rfl
  · rw [hupd]
  · rw [hupd]

/-- **C2 (amended).** The state machine transitions not on a distance
threshold but on grid-cell entry: whenever a seeking, non-carrying NPC's tick
commits a move onto a cell where a registry victim lies, the tick transitions
to `GOING_TO_HOSPITAL` with the side effects the code implements — the victim
is removed from the registry (`pickVictim`, the registry count decreasing by
exactly one), the NPC's carrying flag becomes true, and the in-flight path is
cleared.  (The code has no inactive flag and no carried-victim reference;
`carrying_victim` is a boolean.) -/
theorem c2_pickup_on_cell_entry (g : Game) (v : Entity) (wp : Cell) (rest : List Cell)
    (e' : Entity) (nx ny : Int) (vs' : List Entity)
    (h1 : g.npc.carrying_victim = false)
    (h2 : get_nearest_victim g.victims
        { g.npc with state := EntityState.GOING_TO_VICTIM } = some v)
    (h3 : g.npc.path = wp :: rest)
    (h4 : g.npc.target = some (v.x, v.y))
    (h5 : ({ g.npc with state := EntityState.GOING_TO_VICTIM }.seek wp).update_position =
        (e', some (nx, ny)))
    (h6 : npcMoveValid g nx ny)
    (h8 : pickVictim g.victims nx ny = some vs') :
    (g.update_npc).npc.carrying_victim = true ∧
    (g.update_npc).npc.state = EntityState.GOING_TO_HOSPITAL ∧
    (g.update_npc).npc.path = [] ∧
    (g.update_npc).npc.x = nx ∧ (g.update_npc).npc.y = ny ∧
    (g.update_npc).victims = vs' ∧
    (g.update_npc).victims.length + 1 = g.victims.length := by
  have hfst : ({ g.npc with state := EntityState.GOING_TO_VICTIM }.seek
      wp).update_position.1 = e' := by
    rw [h5]
  have h7 : e'.carrying_victim = false := by
    rw [← hfst, update_position_fst]
    show ({ g.npc with state := EntityState.GOING_TO_VICTIM }.seek wp).carrying_victim = false
    rw [(seek_fields _ _).2.2.2.1]
    exact h1
  rw [update_npc_seek_move g v wp rest e' nx ny h1 h2 h3 h4 h5]
  obtain ⟨a1, a2, a3, a4, a5, a6⟩ := npcCommitSeeking_pickup g e' wp nx ny vs' h6 h7 h8
  refine ⟨a1, a2, a3, a4, a5, a6, ?_⟩
  rw [a6]
  exact pickVictim_length h8

/-- A victim on cell `(2, 0)`. -/
noncomputable def vicB : Entity := Entity.make 2 0 EntityType.VICTIM

/-- An NPC on cell `(1, 0)` at pixel `(79.5, 20)` heading onto the victim's
cell. -/
noncomputable def npcB : Entity :=
  { Entity.make 1 0 EntityType.NPC with
      state := EntityState.GOING_TO_VICTIM
      target := some (2, 0)
      path := [((2 : Int), (0 : Int))]
      position := Vec2.mk 79.5 20 }

def gridB : Int → Int → EntityType := fun x y =>
  if x = 1 ∧ y = 0 then EntityType.NPC
  else if x = 2 ∧ y = 0 then EntityType.VICTIM
  else EntityType.EMPTY

noncomputable def gB : Game :=
  { grid_width := 4, grid_height := 1, grid := gridB, victims := [vicB],
    hospitals := [], player := Entity.make 0 0 EntityType.PLAYER,
    npc := npcB, rescued_count := 0, total_victims := 1 }

/-- Witness for the amended C2: in `gB` the NPC's tick crosses into the
victim's cell `(2, 0)`; the pickup fires with all claimed side effects. -/
theorem c2_pickup_on_cell_entry_witness :
    pickVictim gB.victims 2 0 = some [] ∧
    gB.npc.carrying_victim = false ∧
    ((gB.update_npc).npc.carrying_victim = true ∧
      (gB.update_npc).npc.state = EntityState.GOING_TO_HOSPITAL ∧
      (gB.update_npc).npc.path = [] ∧
      (gB.update_npc).npc.x = 2 ∧ (gB.update_npc).npc.y = 0 ∧
      (gB.update_npc).victims = [] ∧
      (gB.update_npc).victims.length + 1 = gB.victims.length) := by
  have hpos : cellCenter (2, 0) -
      ({ gB.npc with state := EntityState.GOING_TO_VICTIM } : Entity).position =
      Vec2.mk 20.5 0 := by
    show Vec2.mk (((2 * GRID_SIZE + GRID_SIZE / 2 : Int) : ℝ) - 79.5)
      (((0 * GRID_SIZE + GRID_SIZE / 2 : Int) : ℝ) - 20) = Vec2.mk 20.5 0
    rw [Vec2.mk.injEq]
    norm_num [GRID_SIZE]
  have hseek : ({ gB.npc with state := EntityState.GOING_TO_VICTIM } : Entity).seek (2, 0) =
      { ({ gB.npc with state := EntityState.GOING_TO_VICTIM } : Entity) with
          velocity := Vec2.mk (1 / 2) 0 } := by
    apply seek_axis_eval _ _ 20.5 hpos rfl rfl
    · show (0.5 : ℝ) = 1 / 2
      norm_num
    · norm_num
    · norm_num
  have hpos2 : ({ ({ gB.npc with state := EntityState.GOING_TO_VICTIM } : Entity) with
        velocity := Vec2.mk (1 / 2) 0 } : Entity).position +
      ({ ({ gB.npc with state := EntityState.GOING_TO_VICTIM } : Entity) with
        velocity := Vec2.mk (1 / 2) 0 } : Entity).velocity = Vec2.mk 80 20 := by
    show Vec2.mk (79.5 + 1 / 2) (20 + 0) = Vec2.mk 80 20
    rw [Vec2.mk.injEq]
    norm_num
  have hx : ⌊(80 : ℝ) / ((GRID_SIZE : Int) : ℝ)⌋ = (2 : Int) := by
    rw [grid_size_real, Int.floor_eq_iff]
    norm_num
  have hy : ⌊(20 : ℝ) / ((GRID_SIZE : Int) : ℝ)⌋ = (0 : Int) := by
    rw [grid_size_real, Int.floor_eq_iff]
    norm_num
  have h5 : (({ gB.npc with state := EntityState.GOING_TO_VICTIM } : Entity).seek
      (2, 0)).update_position =
      ({ ({ ({ gB.npc with state := EntityState.GOING_TO_VICTIM } : Entity) with
          velocity := Vec2.mk (1 / 2) 0 } : Entity) with
            position := Vec2.mk 80 20 }, some ((2 : Int), (0 : Int))) := by
    rw [hseek]
    exact update_position_eval_some _ 80 20 2 0 hpos2 hx hy (Or.inl (by decide))
  exact ⟨rfl, rfl,
    c2_pickup_on_cell_entry gB vicB (2, 0) [] _ 2 0 [] rfl rfl rfl rfl h5
      (by decide) rfl⟩

/-! ## Claim C6 -/

/-- A victim on cell `(3, 0)`. -/
noncomputable def vic6 : Entity := Entity.make 3 0 EntityType.VICTIM

/-- A hospital on cell `(1, 0)`. -/
noncomputable def hos6 : Entity := Entity.make 1 0 EntityType.HOSPITAL

/-- A non-carrying NPC standing on the hospital cell `(1, 0)` (as after a
drop-off), heading toward the victim through `(2, 0)`. -/
noncomputable def npc6 : Entity :=
  { Entity.make 1 0 EntityType.NPC with
      state := EntityState.GOING_TO_VICTIM
      target := some (3, 0)
      path := [((2 : Int), (0 : Int)), ((3 : Int), (0 : Int))]
      position := Vec2.mk 79.5 20 }

def grid6 : Int → Int → EntityType := fun x y =>
  if x = 1 ∧ y = 0 then EntityType.NPC
  else if x = 3 ∧ y = 0 then EntityType.VICTIM
  else EntityType.EMPTY

noncomputable def g6 : Game :=
  { grid_width := 4, grid_height := 1, grid := grid6, victims := [vic6],
    hospitals := [hos6], player := Entity.make 0 0 EntityType.PLAYER,
    npc := npc6, rescued_count := 0, total_victims := 1 }

/-- The stepped NPC of the `g6` tick: velocity `(1/2, 0)`, position advanced
to `(80, 20)`. -/
noncomputable def npc6' : Entity :=
  { ({ ({ g6.npc with state := EntityState.GOING_TO_VICTIM } : Entity) with
      velocity := Vec2.mk (1 / 2) 0 } : Entity) with position := Vec2.mk 80 20 }

/-- **C6.** The claim (and the carrying branch plus `move_player`) say a grid
cell occupied by a hospital regains kind Hospital whenever the agent standing
on it departs.  The seeking branch omits the restore (line 368 clears the
departed cell to Empty unconditionally), so the hospital cell is lost from the
grid: in `g6` a non-carrying NPC stands on hospital cell `(1, 0)` and departs
to `(2, 0)`; afterwards the grid holds `EMPTY` at `(1, 0)`, not `HOSPITAL`,
although the hospital entity list still contains the hospital there. -/
theorem c6_hospital_cell_not_restored :
    (∃ h ∈ g6.hospitals, h.x = 1 ∧ h.y = 0) ∧
    g6.npc.carrying_victim = false ∧
    g6.npc.x = 1 ∧ g6.npc.y = 0 ∧
    (g6.update_npc).npc.x = 2 ∧ (g6.update_npc).npc.y = 0 ∧
    (g6.update_npc).grid 1 0 = EntityType.EMPTY ∧
    (g6.update_npc).hospitals = g6.hospitals := by
  have hpos : cellCenter (2, 0) -
      ({ g6.npc with state := EntityState.GOING_TO_VICTIM } : Entity).position =
      Vec2.mk 20.5 0 := by
    show Vec2.mk (((2 * GRID_SIZE + GRID_SIZE / 2 : Int) : ℝ) - 79.5)
      (((0 * GRID_SIZE + GRID_SIZE / 2 : Int) : ℝ) - 20) = Vec2.mk 20.5 0
    rw [Vec2.mk.injEq]
    norm_num [GRID_SIZE]
  have hseek : ({ g6.npc with state := EntityState.GOING_TO_VICTIM } : Entity).seek (2, 0) =
      { ({ g6.npc with state := EntityState.GOING_TO_VICTIM } : Entity) with
          velocity := Vec2.mk (1 / 2) 0 } := by
    apply seek_axis_eval _ _ 20.5 hpos rfl rfl
    · show (0.5 : ℝ) = 1 / 2
      norm_num
    · norm_num
    · norm_num
  have hpos2 : ({ ({ g6.npc with state := EntityState.GOING_TO_VICTIM } : Entity) with
        velocity := Vec2.mk (1 / 2) 0 } : Entity).position +
      ({ ({ g6.npc with state := EntityState.GOING_TO_VICTIM } : Entity) with
        velocity := Vec2.mk (1 / 2) 0 } : Entity).velocity = Vec2.mk 80 20 := by
    show Vec2.mk (79.5 + 1 / 2) (20 + 0) = Vec2.mk 80 20
    rw [Vec2.mk.injEq]
    norm_num
  have hx : ⌊(80 : ℝ) / ((GRID_SIZE : Int) : ℝ)⌋ = (2 : Int) := by
    rw [grid_size_real, Int.floor_eq_iff]
    norm_num
  have hy : ⌊(20 : ℝ) / ((GRID_SIZE : Int) : ℝ)⌋ = (0 : Int) := by
    rw [grid_size_real, Int.floor_eq_iff]
    norm_num
  have h5 : (({ g6.npc with state := EntityState.GOING_TO_VICTIM } : Entity).seek
      (2, 0)).update_position = (npc6', some ((2 : Int), (0 : Int))) := by
    rw [hseek]
    exact update_position_eval_some _ 80 20 2 0 hpos2 hx hy (Or.inl (by decide))
  have hupd := update_npc_seek_move g6 vic6 (2, 0) [((3 : Int), (0 : Int))] npc6' 2 0
    rfl rfl rfl rfl h5
  have hval : npcMoveValid g6 2 0 := by decide
  have hnopick := npcCommitSeeking_nopick g6 npc6' (2, 0) 2 0 hval rfl rfl
  have hcell := npcCommitSeeking_departed_cell g6 npc6' (2, 0) 2 0 hval (by decide)
  refine ⟨⟨hos6, List.mem_singleton.mpr rfl, rfl, rfl⟩, rfl, rfl, rfl, ?_, ?_, ?_, ?_⟩
  · rw [hupd]
    exact hnopick.1
  · rw [hupd]
    exact hnopick.2.1
  · rw [hupd]
    exact hcell
  · rw [hupd]
    exact npcCommitSeeking_hospitals g6 _ _ _ _

/-! ## Claim C10 -/

/-- **C10.** When the NPC's computed destination cell is rejected at
move-commit time, the grid coordinates stay unchanged for that tick, but the
continuous position and velocity were already advanced by `update_position`
before the validity check and are not rolled back: the whole tick amounts to
replacing the NPC by the stepped entity, whose grid coordinates are the old
ones while its continuous position's floor cell is exactly the rejected
destination. -/
theorem c10_rejected_move_desync (g : Game) (v : Entity) (wp : Cell) (rest : List Cell)
    (e' : Entity) (nx ny : Int)
    (h1 : g.npc.carrying_victim = false)
    (h2 : get_nearest_victim g.victims
        { g.npc with state := EntityState.GOING_TO_VICTIM } = some v)
    (h3 : g.npc.path = wp :: rest)
    (h4 : g.npc.target = some (v.x, v.y))
    (h5 : ({ g.npc with state := EntityState.GOING_TO_VICTIM }.seek wp).update_position =
        (e', some (nx, ny)))
    (h6 : ¬ npcMoveValid g nx ny) :
    g.update_npc = { g with npc := e' } ∧
    e'.x = g.npc.x ∧ e'.y = g.npc.y ∧
    e'.position = ({ g.npc with state := EntityState.GOING_TO_VICTIM }.seek wp).position +
      ({ g.npc with state := EntityState.GOING_TO_VICTIM }.seek wp).velocity ∧
    nx = ⌊e'.position.x / ((GRID_SIZE : Int) : ℝ)⌋ ∧
    ny = ⌊e'.position.y / ((GRID_SIZE : Int) : ℝ)⌋ := by
  have heq := update_npc_seek_move g v wp rest e' nx ny h1 h2 h3 h4 h5
  rw [npcCommitSeeking_invalid g e' wp nx ny h6] at heq
  obtain ⟨he', hnx, hny⟩ := update_position_inv h5
  refine ⟨heq, ?_, ?_, ?_, ?_, ?_⟩
  · rw [he']
    show ({ g.npc with state := EntityState.GOING_TO_VICTIM }.seek wp).x = g.npc.x
    rw [(seek_fields _ _).1]
  · rw [he']
    show ({ g.npc with state := EntityState.GOING_TO_VICTIM }.seek wp).y = g.npc.y
    rw [(seek_fields _ _).2.1]
  · rw [he']
  · rw [he']
    exact hnx
  · rw [he']
    exact hny

/-- A victim on cell `(3, 0)`, with a Building blocking cell `(2, 0)`. -/
noncomputable def vicA : Entity := Entity.make 3 0 EntityType.VICTIM

noncomputable def npcA : Entity :=
  { Entity.make 1 0 EntityType.NPC with
      state := EntityState.GOING_TO_VICTIM
      target := some (3, 0)
      path := [((2 : Int), (0 : Int)), ((3 : Int), (0 : Int))]
      position := Vec2.mk 79.5 20 }

def gridA : Int → Int → EntityType := fun x y =>
  if x = 2 ∧ y = 0 then EntityType.BUILDING
  else if x = 3 ∧ y = 0 then EntityType.VICTIM
  else EntityType.EMPTY

noncomputable def gA : Game :=
  { grid_width := 4, grid_height := 1, grid := gridA, victims := [vicA],
    hospitals := [], player := Entity.make 0 0 EntityType.PLAYER,
    npc := npcA, rescued_count := 0, total_victims := 1 }

/-- The stepped NPC of the rejected tick in `gA`: velocity and position
advanced into the blocked cell while the grid coordinates stay `(1, 0)`. -/
noncomputable def npcA' : Entity :=
  { ({ ({ gA.npc with state := EntityState.GOING_TO_VICTIM } : Entity) with
      velocity := Vec2.mk (1 / 2) 0 } : Entity) with position := Vec2.mk 80 20 }

/-- Witness for C10: in `gA` the destination `(2, 0)` is a Building; the tick
leaves the grid coordinates at `(1, 0)` while the continuous position has
advanced to `(80, 20)`, whose floor cell is the blocked `(2, 0)`. -/
theorem c10_rejected_move_desync_witness :
    ¬ npcMoveValid gA 2 0 ∧
    (gA.update_npc = { gA with npc := npcA' } ∧
      npcA'.x = gA.npc.x ∧ npcA'.y = gA.npc.y ∧
      npcA'.position = ({ gA.npc with state := EntityState.GOING_TO_VICTIM }.seek
          (2, 0)).position +
        ({ gA.npc with state := EntityState.GOING_TO_VICTIM }.seek (2, 0)).velocity ∧
      (2 : Int) = ⌊npcA'.position.x / ((GRID_SIZE : Int) : ℝ)⌋ ∧
      (0 : Int) = ⌊npcA'.position.y / ((GRID_SIZE : Int) : ℝ)⌋) := by
  have hpos : cellCenter (2, 0) -
      ({ gA.npc with state := EntityState.GOING_TO_VICTIM } : Entity).position =
      Vec2.mk 20.5 0 := by
    show Vec2.mk (((2 * GRID_SIZE + GRID_SIZE / 2 : Int) : ℝ) - 79.5)
      (((0 * GRID_SIZE + GRID_SIZE / 2 : Int) : ℝ) - 20) = Vec2.mk 20.5 0
    rw [Vec2.mk.injEq]
    norm_num [GRID_SIZE]
  have hseek : ({ gA.npc with state := EntityState.GOING_TO_VICTIM } : Entity).seek (2, 0) =
      { ({ gA.npc with state := EntityState.GOING_TO_VICTIM } : Entity) with
          velocity := Vec2.mk (1 / 2) 0 } := by
    apply seek_axis_eval _ _ 20.5 hpos rfl rfl
    · show (0.5 : ℝ) = 1 / 2
      norm_num
    · norm_num
    · norm_num
  have hpos2 : ({ ({ gA.npc with state := EntityState.GOING_TO_VICTIM } : Entity) with
        velocity := Vec2.mk (1 / 2) 0 } : Entity).position +
      ({ ({ gA.npc with state := EntityState.GOING_TO_VICTIM } : Entity) with
        velocity := Vec2.mk (1 / 2) 0 } : Entity).velocity = Vec2.mk 80 20 := by
    show Vec2.mk (79.5 + 1 / 2) (20 + 0) = Vec2.mk 80 20
    rw [Vec2.mk.injEq]
    norm_num
  have hx : ⌊(80 : ℝ) / ((GRID_SIZE : Int) : ℝ)⌋ = (2 : Int) := by
    rw [grid_size_real, Int.floor_eq_iff]
    norm_num
  have hy : ⌊(20 : ℝ) / ((GRID_SIZE : Int) : ℝ)⌋ = (0 : Int) := by
    rw [grid_size_real, Int.floor_eq_iff]
    norm_num
  have h5 : (({ gA.npc with state := EntityState.GOING_TO_VICTIM } : Entity).seek
      (2, 0)).update_position = (npcA', some ((2 : Int), (0 : Int))) := by
    rw [hseek]
    exact update_position_eval_some _ 80 20 2 0 hpos2 hx hy (Or.inl (by decide))
  exact ⟨by decide,
    c10_rejected_move_desync gA vicA (2, 0) [((3 : Int), (0 : Int))] npcA' 2 0
      rfl rfl rfl rfl h5 (by decide)⟩

/-! ## Claim C9 -/

/-- **C9.** The claim states that each agent maintains a rolling window of its
last 30 positions with a stuck timer, and that after more than 60 consecutive
low-displacement ticks a randomized escape force is injected on tick 61.  The
code has no such mechanism: `Entity` carries no position history and no stuck
timer, and no escape force exists anywhere.  Concretely, on the game `g1` the
NPC is pinned (its only victim is unreachable, so its path stays empty): after
61 ticks the whole game state — in particular the NPC's position and its zero
velocity — is exactly unchanged, so no recovery force was applied on tick 61
or any other tick. -/
theorem c9_no_stuck_recovery :
    Game.update_npc^[61] g1 = g1 ∧
    g1.npc.velocity = Vec2.mk 0 0 ∧
    (Game.update_npc^[61] g1).npc.position = g1.npc.position ∧
    (Game.update_npc^[61] g1).npc.velocity = g1.npc.velocity := by
  have hfix : Game.update_npc g1 = g1 := g1_fixed
  refine ⟨Function.iterate_fixed hfix 61, rfl, ?_, ?_⟩
  · rw [Function.iterate_fixed hfix 61]
  · rw [Function.iterate_fixed hfix 61]

end Rescue
